import Mathlib

/-!
# Prism — verification of the memory ledger, conflict pipeline and turn orchestrator

Shallow embedding of the core of the Prism multi-turn research agent:
* `src/core/ids.py` — fingerprint generation,
* `src/core/models.py` — the typed domain records,
* `src/core/memory.py` — the `MemoryFacade` ledger (dedup, merge, rollup),
* `src/core/acts/decide.py` — the fallback decision policy,
* `src/core/acts/resolve_conflict.py` — search-plan / resolution validation,
* `src/core/agent_with_memory_content_monitor.py` — the main loop skeleton.

Python floats are modelled as rationals (`ℚ`); Python dicts as association
lists preserving insertion order (assignment to an existing key keeps its
position, as in CPython); Python truthiness of optional floats / strings /
lists is modelled explicitly by `pyOrQ` / `strTruthy` helpers.
-/

namespace Prism

/-- Association-list lookup, modelling `dict.get` / `in` tests. -/
def aget {κ α : Type} [DecidableEq κ] (l : List (κ × α)) (k : κ) : Option α :=
  match l with
  | [] => none
  | (k', v) :: rest => if k' = k then some v else aget rest k

/-- Association-list assignment, modelling `d[k] = v` on a CPython dict:
an existing key keeps its position, a new key is appended. -/
def aset {κ α : Type} [DecidableEq κ] (l : List (κ × α)) (k : κ) (v : α) :
    List (κ × α) :=
  match l with
  | [] => [(k, v)]
  | (k', v') :: rest => if k' = k then (k, v) :: rest else (k', v') :: aset rest k v

/-- Python `x or default` on an optional float: `None` and `0.0` are falsy. -/
def pyOrQ (s : Option ℚ) (d : ℚ) : ℚ :=
  match s with
  | none => d
  | some v => if v = 0 then d else v

/-- Python truthiness of an optional string (`None` and `""` are falsy). -/
def strTruthy (s : Option String) : Bool :=
  match s with
  | none => false
  | some t => t ≠ ""

/-- Python `list(set(a + b))`: the union of two lists with duplicates removed
(the source's `set` iteration order is unspecified; we keep a deterministic
dedup, and state all properties about it via membership). -/
def dedupUnion (a b : List String) : List String :=
  (a ++ b).dedup

/-! ## Domain model (`src/core/models.py`) -/

/-- `models.Source`. -/
structure Source where
  url : String
  domain : String
  type : String
deriving DecidableEq, Repr

/-- `models.EvidenceItem`. -/
structure EvidenceItem where
  id : String
  source : Source
  time : String
  text : String
deriving DecidableEq, Repr

/-- `models.Claim`; `confidence`/`salience` floats are modelled in `ℚ`,
`stance` is the optional stance string. -/
structure Claim where
  id : String
  text : String
  support_ids : List String
  aspects : List String
  confidence : ℚ
  stance : Option String := none
  salience : Option ℚ := none
deriving DecidableEq, Repr

/-- `models.Metrics`. -/
structure Metrics where
  sufficiency : ℚ
  reliability : ℚ
  consistency : ℚ
  recency : ℚ
  diversity : ℚ
deriving DecidableEq, Repr

/-- `models.Issue` with its optional type-specific fields. -/
structure Issue where
  type : String
  severity : String
  blocking : Bool
  desc : String
  aspect : Option String := none
  claims : Option (List String) := none
  time_window : Option String := none
  source_hint : Option String := none
  dimension : Option String := none
deriving DecidableEq, Repr

/-- `models.NextAction`. -/
structure NextAction where
  action : String
  query : String
  aspects_need : List String
  source_pref : Option String := none
  time_window : Option String := none
deriving DecidableEq, Repr

/-- `models.EvaluateSnapshot`; the untyped `unmet` dicts are modelled as
association lists of strings. -/
structure EvaluateSnapshot where
  metrics : Metrics
  issues : List Issue
  passed : Bool
  unmet : List (List (String × String))
  next_actions : List NextAction
  stance_stats : Option (List (String × Int)) := none
deriving DecidableEq, Repr

/-- `models.SessionConfig`; the untyped pref/threshold/budget dicts are
modelled as string-keyed association lists of rationals. -/
structure SessionConfig where
  prefs : List (String × ℚ)
  thresholds : List (String × ℚ)
  budget_state : List (String × ℚ)
  stance_enabled : Bool := false
deriving DecidableEq, Repr

/-- `models.PlanSnapshot`. -/
structure PlanSnapshot where
  evidence_base_ids : List String
  claim_base_ids : List String
deriving DecidableEq, Repr

/-- `models.EvaluateSnapshot` as a patch payload; `models.PlanPatch`. -/
structure PlanPatch where
  add_evidence_ids : List String := []
  merge_claims : List Claim := []
  set_evaluate : Option EvaluateSnapshot := none
deriving DecidableEq, Repr

/-- `models.ActionLog`. -/
structure ActionLog where
  action_id : String
  type : String
  query : String
  out_evidence_ids : List String
  cost : ℚ
  ts : String
  status : String
deriving DecidableEq, Repr

/-- `models.PlanStep`. -/
structure PlanStep where
  step_id : String
  goal : String
  action_seed : List NextAction
  done_criteria : String
  priority : Int
  way : String := ""
  status : String := "NOT_START"
deriving DecidableEq, Repr

/-! ## Identifier service (`src/core/ids.py`) -/

/-- `ids.generate_fingerprint`: the source computes
`hashlib.md5(f"{url}|{text}".encode()).hexdigest()[:16]`.  The MD5 digest is
modelled as the identity on its input string, which preserves the only
property the ledger relies on: equal `(url, text)` payloads have equal
fingerprints. -/
def generate_fingerprint (text : String) (url : String := "") : String :=
  url ++ "|" ++ text

/-! ## Memory ledger (`src/core/memory.py`) -/

/-- The per-turn slice of `MemoryFacade._turn_data[session_id][turn_id]`.
The source stores a plain dict and reads every field through `.get` with a
default, so a structure with those defaults is an exact model. -/
structure TurnData where
  user_query : String := ""
  plan_list : List PlanStep := []
  current_step_id : Option String := none
  evidences_active : List EvidenceItem := []
  claims_active : List Claim := []
  last_evaluate : Option EvaluateSnapshot := none
deriving DecidableEq, Repr

/-- The per-plan slice of `MemoryFacade._plan_data[sid][tid][pid]`: the
baseline snapshot, the append-only patch trail (tagged with a step id) and
the step pass/fail gate. -/
structure PlanData where
  plan_start_snapshot : PlanSnapshot
  plan_patches : List (String × PlanPatch) := []
  plan_gate : List (String × Bool) := []
deriving DecidableEq, Repr

/-- The state of a `MemoryFacade` instance.  Nested dicts are flattened to
association lists keyed by the same identifiers, preserving insertion
order. -/
structure MemoryFacade where
  session_configs : List (String × SessionConfig) := []
  session_archives : List (String × String) := []
  turn_data : List (String × List (String × TurnData)) := []
  plan_data : List ((String × String × String) × PlanData) := []
  action_logs : List ((String × String) × List ActionLog) := []
  evidence_index : List (String × EvidenceItem) := []
deriving DecidableEq, Repr

namespace MemoryFacade

/-- `self._turn_data.get(session_id, {}).get(turn_id)`. -/
def getTurn (st : MemoryFacade) (sid tid : String) : Option TurnData :=
  (aget st.turn_data sid).bind (fun ts => aget ts tid)

/-- `self._turn_data[session_id][turn_id] = td` (defaultdict semantics:
missing session and turn entries are created, existing ones keep their
position). -/
def setTurn (st : MemoryFacade) (sid tid : String) (td : TurnData) :
    MemoryFacade :=
  let ts := (aget st.turn_data sid).getD []
  { st with turn_data := aset st.turn_data sid (aset ts tid td) }

/-- The condition `claim.confidence >= 0.8 and (claim.salience or 0.5) >= 0.6`
used by `begin_turn` for cross-turn claim inheritance. -/
def inheritQualifies (c : Claim) : Bool :=
  decide ((0.8 : ℚ) ≤ c.confidence) && decide ((0.6 : ℚ) ≤ pyOrQ c.salience 0.5)

/-- The inheritance loop of `begin_turn`: for each of the previous turns (in
insertion order) first extend the inherited claims with that turn's
qualifying claims, then pull in every active evidence item of that turn that
supports at least one claim inherited so far (the `break` in the source only
prevents appending one evidence item twice within a single turn visit). -/
def inheritLoop (turns : List (String × TurnData)) :
    List Claim × List EvidenceItem :=
  turns.foldl
    (fun acc pt =>
      let cs := acc.1 ++ pt.2.claims_active.filter inheritQualifies
      let es := acc.2 ++
        pt.2.evidences_active.filter
          (fun e => cs.any (fun c => c.support_ids.contains e.id))
      (cs, es))
    ([], [])

/-- `MemoryFacade.begin_turn`: create a fresh turn scope, then inherit
claims/evidence from the last two previous turns of the session. -/
def begin_turn (st : MemoryFacade) (sid tid user_query : String) :
    MemoryFacade :=
  let st1 := st.setTurn sid tid { user_query := user_query }
  let turns := (aget st1.turn_data sid).getD []
  let prevs := turns.filter (fun p => p.1 ≠ tid)
  if prevs.isEmpty then st1
  else
    let lastTwo := prevs.drop (prevs.length - 2)
    let inh := inheritLoop lastTwo
    st1.setTurn sid tid
      { user_query := user_query
        evidences_active := inh.2
        claims_active := inh.1 }

/-- `MemoryFacade.begin_plan`. -/
def begin_plan (st : MemoryFacade) (sid tid pid : String)
    (base_evidence_ids base_claim_ids : List String) : MemoryFacade :=
  { st with
    plan_data := aset st.plan_data (sid, tid, pid)
      { plan_start_snapshot :=
          { evidence_base_ids := base_evidence_ids
            claim_base_ids := base_claim_ids } } }

/-- `MemoryFacade.record_action`. -/
def record_action (st : MemoryFacade) (sid tid : String) (log : ActionLog) :
    MemoryFacade :=
  { st with
    action_logs := aset st.action_logs (sid, tid)
      (((aget st.action_logs (sid, tid)).getD []) ++ [log]) }

/-- The dedup loop of `add_evidences`: process items in order, admitting an
item (appending it to the active list, recording its fingerprint and
returning its id) exactly when its fingerprint is not yet in the process-wide
evidence index. -/
def add_evidences_loop (index : List (String × EvidenceItem))
    (active : List EvidenceItem) (new_ids : List String) :
    List EvidenceItem →
      List (String × EvidenceItem) × List EvidenceItem × List String
  | [] => (index, active, new_ids)
  | e :: rest =>
    let fp := generate_fingerprint e.text e.source.url
    if (aget index fp).isSome then
      add_evidences_loop index active new_ids rest
    else
      add_evidences_loop (aset index fp e) (active ++ [e]) (new_ids ++ [e.id]) rest

/-- Append a patch to a plan's patch trail (`plan_patches.append`). -/
def appendPatch (st : MemoryFacade) (sid tid pid step_id : String)
    (patch : PlanPatch) : MemoryFacade :=
  match aget st.plan_data (sid, tid, pid) with
  | none => st
  | some pd =>
    { st with
      plan_data := aset st.plan_data (sid, tid, pid)
        { pd with plan_patches := pd.plan_patches ++ [(step_id, patch)] } }

/-- `MemoryFacade.add_evidences`.  The source raises a `KeyError` when the
turn scope does not exist; such calls produce no new state and are modelled
as leaving the ledger unchanged with no new ids. -/
def add_evidences (st : MemoryFacade) (sid tid pid : String)
    (evidences : List EvidenceItem) : MemoryFacade × List String :=
  match st.getTurn sid tid with
  | none => (st, [])
  | some td =>
    let r := add_evidences_loop st.evidence_index td.evidences_active [] evidences
    let new_ids := r.2.2
    let st1 := { st with evidence_index := r.1 }
    let st2 := st1.setTurn sid tid { td with evidences_active := r.2.1 }
    let st3 :=
      if new_ids ≠ [] ∧ (aget st.plan_data (sid, tid, pid)).isSome then
        match td.current_step_id with
        | some step_id =>
          if step_id ≠ "" then
            st2.appendPatch sid tid pid step_id { add_evidence_ids := new_ids }
          else st2
        | none => st2
      else st2
    (st3, new_ids)

/-- The in-place merge of one incoming claim into an existing claim with the
same id (`merge_claims` body, lines 131-140 of `memory.py`). -/
def mergeExisting (existing new_claim : Claim) : Claim :=
  let existing := { existing with
    support_ids := dedupUnion existing.support_ids new_claim.support_ids
    confidence := max existing.confidence new_claim.confidence }
  let existing :=
    if strTruthy new_claim.stance then { existing with stance := new_claim.stance }
    else existing
  let existing :=
    match new_claim.salience with
    | some v =>
      if v = 0 then existing
      else { existing with salience := some (max (pyOrQ existing.salience 0) v) }
    | none => existing
  if new_claim.aspects ≠ [] then
    { existing with aspects := dedupUnion existing.aspects new_claim.aspects }
  else existing

/-- The loop of `merge_claims`: membership is tested against the ids present
when the call started (`existing_claims` is built once), while merges apply
to the current list contents (the source mutates the shared claim
objects). -/
def merge_claims_loop (snapshotIds : List String) (active : List Claim) :
    List Claim → List Claim
  | [] => active
  | n :: rest =>
    if snapshotIds.contains n.id then
      merge_claims_loop snapshotIds
        (active.map (fun c => if c.id = n.id then mergeExisting c n else c)) rest
    else
      merge_claims_loop snapshotIds (active ++ [n]) rest

/-- `MemoryFacade.merge_claims`.  As with `add_evidences`, a call on a
missing turn scope raises in the source and is modelled as a no-op. -/
def merge_claims (st : MemoryFacade) (sid tid pid : String)
    (claims : List Claim) : MemoryFacade :=
  match st.getTurn sid tid with
  | none => st
  | some td =>
    let snapshotIds := td.claims_active.map (·.id)
    let active := merge_claims_loop snapshotIds td.claims_active claims
    let st1 := st.setTurn sid tid { td with claims_active := active }
    -- `merged_claims` collects every incoming claim in both branches, so the
    -- patch is recorded whenever the incoming list is nonempty.
    if claims ≠ [] ∧ (aget st.plan_data (sid, tid, pid)).isSome then
      match td.current_step_id with
      | some step_id =>
        if step_id ≠ "" then
          st1.appendPatch sid tid pid step_id { merge_claims := claims }
        else st1
      | none => st1
    else st1

/-- `MemoryFacade.set_evaluate`.  The defaultdict read creates the turn
scope when missing; a dict with only `last_evaluate` set reads back exactly
like the defaults of `TurnData`. -/
def set_evaluate (st : MemoryFacade) (sid tid pid : String)
    (snapshot : EvaluateSnapshot) : MemoryFacade :=
  let td := (st.getTurn sid tid).getD {}
  let st1 := st.setTurn sid tid { td with last_evaluate := some snapshot }
  if (aget st.plan_data (sid, tid, pid)).isSome then
    match td.current_step_id with
    | some step_id =>
      if step_id ≠ "" then
        let st2 := st1.appendPatch sid tid pid step_id { set_evaluate := some snapshot }
        match aget st2.plan_data (sid, tid, pid) with
        | none => st2
        | some pd =>
          { st2 with
            plan_data := aset st2.plan_data (sid, tid, pid)
              { pd with plan_gate := aset pd.plan_gate step_id snapshot.passed } }
      else st1
    | none => st1
  else st1

/-- A conflict-resolution claim update as produced by
`ResolveConflict._validate_resolution` (`claim_id`, `action` and
`new_confidence` are always present there; `new_text` is required by the
source whenever the action is `revised` — `update["new_text"]` is indexed
directly — so it is carried as a plain string; `evidence_ids` presence is
tested with `in` and is an `Option`). -/
structure ClaimUpdate where
  claim_id : String
  action : String
  new_confidence : ℚ
  new_text : String := ""
  evidence_ids : Option (List String) := none
deriving DecidableEq, Repr

/-- The per-update mutation of `apply_claim_updates` (evidence ids are
unioned only in the `revised` branch). -/
def applyOneUpdate (c : Claim) (u : ClaimUpdate) : Claim :=
  if u.action = "upheld" then { c with confidence := u.new_confidence }
  else if u.action = "revised" then
    { c with
      text := u.new_text
      confidence := u.new_confidence
      support_ids :=
        match u.evidence_ids with
        | some ids => dedupUnion c.support_ids ids
        | none => c.support_ids }
  else if u.action = "retracted" then { c with confidence := 0 }
  else c

/-- One step of the `apply_claim_updates` loop on the id-keyed claim map
(`if not claim_id or claim_id not in claims_map: continue`). -/
def applyUpdateStep (m : List (String × Claim)) (u : ClaimUpdate) :
    List (String × Claim) :=
  if u.claim_id = "" then m
  else
    match aget m u.claim_id with
    | none => m
    | some c => aset m u.claim_id (applyOneUpdate c u)

/-- Reconstruct the mutated active list: the Python dict holds the *last*
occurrence of each id, so mutations are visible at the last occurrence
while earlier duplicates keep their original contents. -/
def rebuildClaims (m : List (String × Claim)) : List Claim → List Claim
  | [] => []
  | c :: rest =>
    (if rest.all (fun c2 => c2.id ≠ c.id) then (aget m c.id).getD c else c)
      :: rebuildClaims m rest

/-- `MemoryFacade.apply_claim_updates`.  `claims_map` is a dict built from
the active list (a later duplicate id shadows an earlier one), updates
mutate the mapped object in place, and the final active list is the original
list — with the last occurrence of each id replaced by its mutated version —
filtered to confidence `> 0`. -/
def apply_claim_updates (st : MemoryFacade) (sid tid : String)
    (updates : List ClaimUpdate) : MemoryFacade :=
  match st.getTurn sid tid with
  | none => st
  | some td =>
    let active := td.claims_active
    let m0 : List (String × Claim) := active.foldl (fun m c => aset m c.id c) []
    let m1 := updates.foldl applyUpdateStep m0
    let active' := (rebuildClaims m1 active).filter
      (fun c => decide (0 < c.confidence))
    st.setTurn sid tid { td with claims_active := active' }

/-- The condition `c.confidence >= 0.7 and (c.salience or 0.5) >= 0.5` used
by `rollup_to_session_archive`. -/
def rollupQualifies (c : Claim) : Bool :=
  decide ((0.7 : ℚ) ≤ c.confidence) && decide ((0.5 : ℚ) ≤ pyOrQ c.salience 0.5)

/-- `MemoryFacade.rollup_to_session_archive`: when at least one claim
qualifies, the session archive is replaced by a summary of (up to) the first
five qualifying claims; otherwise nothing is written. -/
def rollup_to_session_archive (st : MemoryFacade) (sid tid : String) :
    MemoryFacade :=
  let td := (st.getTurn sid tid).getD {}
  let high_quality := td.claims_active.filter rollupQualifies
  if high_quality.isEmpty then st
  else
    let summary_texts := (high_quality.take 5).map (·.text)
    let archive := "Key findings: " ++ String.intercalate "; " summary_texts
    { st with session_archives := aset st.session_archives sid archive }

/-- `MemoryFacade.set_plan_list` (also resets the current step to the first
step when the list is nonempty). -/
def set_plan_list (st : MemoryFacade) (sid tid : String)
    (steps : List PlanStep) : MemoryFacade :=
  let td := (st.getTurn sid tid).getD {}
  match steps with
  | [] => st.setTurn sid tid { td with plan_list := [] }
  | s :: _ =>
    st.setTurn sid tid
      { td with plan_list := steps, current_step_id := some s.step_id }

/-- `MemoryFacade.set_current_step`. -/
def set_current_step (st : MemoryFacade) (sid tid step_id : String) :
    MemoryFacade :=
  let td := (st.getTurn sid tid).getD {}
  st.setTurn sid tid { td with current_step_id := some step_id }

/-- Set the status of the first plan step with the given id (`break` after
the first match). -/
def setStatusFirst (step_id status : String) : List PlanStep → List PlanStep
  | [] => []
  | s :: rest =>
    if s.step_id = step_id then { s with status := status } :: rest
    else s :: setStatusFirst step_id status rest

/-- `MemoryFacade.set_step_status` (a missing turn scope is a no-op: the
source reads through `.get`). -/
def set_step_status (st : MemoryFacade) (sid tid step_id status : String) :
    MemoryFacade :=
  match st.getTurn sid tid with
  | none => st
  | some td =>
    st.setTurn sid tid
      { td with plan_list := setStatusFirst step_id status td.plan_list }

/-- `MemoryFacade.set_session_config`. -/
def set_session_config (st : MemoryFacade) (sid : String)
    (cfg : SessionConfig) : MemoryFacade :=
  { st with session_configs := aset st.session_configs sid cfg }

/-- `MemoryFacade.get_claims`.  The source maps every active claim through
`_claim_to_dict`, a field-preserving conversion; we return the underlying
claims, on which all stated properties (ids, confidences) coincide. -/
def get_claims (st : MemoryFacade) (sid tid : String) : List Claim :=
  ((st.getTurn sid tid).getD {}).claims_active

/-- `MemoryFacade.get_evidences` (same remark as `get_claims`). -/
def get_evidences (st : MemoryFacade) (sid tid : String) : List EvidenceItem :=
  ((st.getTurn sid tid).getD {}).evidences_active

/-- `MemoryFacade.get_session_archive`. -/
def get_session_archive (st : MemoryFacade) (sid : String) : Option String :=
  aget st.session_archives sid

end MemoryFacade

/-! ## Ledger operation sequences

Reachable ledger states are those obtained by applying any sequence of the
public `MemoryFacade` operations to some starting state. -/

/-- One public ledger operation with its arguments. -/
inductive Op
  | beginTurn (sid tid user_query : String)
  | beginPlan (sid tid pid : String) (baseE baseC : List String)
  | addEvidences (sid tid pid : String) (evidences : List EvidenceItem)
  | mergeClaims (sid tid pid : String) (claims : List Claim)
  | applyClaimUpdates (sid tid : String) (updates : List MemoryFacade.ClaimUpdate)
  | setEvaluate (sid tid pid : String) (snapshot : EvaluateSnapshot)
  | rollup (sid tid : String)
  | setPlanList (sid tid : String) (steps : List PlanStep)
  | setCurrentStep (sid tid step_id : String)
  | setStepStatus (sid tid step_id status : String)
  | recordAction (sid tid : String) (log : ActionLog)
  | setSessionConfig (sid : String) (cfg : SessionConfig)
deriving Repr

/-- Apply one operation to the ledger. -/
def applyOp (st : MemoryFacade) : Op → MemoryFacade
  | .beginTurn sid tid q => st.begin_turn sid tid q
  | .beginPlan sid tid pid be bc => st.begin_plan sid tid pid be bc
  | .addEvidences sid tid pid evs => (st.add_evidences sid tid pid evs).1
  | .mergeClaims sid tid pid cs => st.merge_claims sid tid pid cs
  | .applyClaimUpdates sid tid us => st.apply_claim_updates sid tid us
  | .setEvaluate sid tid pid snap => st.set_evaluate sid tid pid snap
  | .rollup sid tid => st.rollup_to_session_archive sid tid
  | .setPlanList sid tid steps => st.set_plan_list sid tid steps
  | .setCurrentStep sid tid s => st.set_current_step sid tid s
  | .setStepStatus sid tid s stat => st.set_step_status sid tid s stat
  | .recordAction sid tid log => st.record_action sid tid log
  | .setSessionConfig sid cfg => st.set_session_config sid cfg

/-- Apply a sequence of operations in order. -/
def applyOps (st : MemoryFacade) (ops : List Op) : MemoryFacade :=
  ops.foldl applyOp st

/-- Whether a `mergeClaims` operation carries only claims of nonzero
confidence (vacuously true for every other operation). -/
def Op.mergePayloadNonzero : Op → Prop
  | .mergeClaims _ _ _ cs => ∀ c ∈ cs, c.confidence ≠ 0
  | _ => True

/-- Whether an operation is a `beginTurn` (the only operation that rewrites
a turn's stored user query). -/
def Op.isBeginTurn : Op → Bool
  | .beginTurn _ _ _ => true
  | _ => false

/-! ## Fallback decision policy (`src/core/acts/decide.py`) -/

/-- The `{action, rationale}` record returned by `MakeDecision`. -/
structure Decision where
  action : String
  rationale : String
deriving DecidableEq, Repr

namespace MakeDecision

/-- `MakeDecision._fallback_decision`: the deterministic decision policy
used when the collaborator's output is unusable. -/
def fallback_decision (last_evaluate : EvaluateSnapshot) : Decision :=
  let has_blocking := last_evaluate.issues.any (·.blocking)
  if last_evaluate.passed && !has_blocking then
    { action := "FINISH", rationale := "评估通过且无阻塞问题" }
  else
    match last_evaluate.issues.find?
        (fun i => i.type = "conflict" && i.severity = "high" && i.blocking) with
    | some _ => { action := "RESOLVE_CONFLICT", rationale := "存在高严重度冲突需要解决" }
    | none =>
      match last_evaluate.issues.find? (fun i => i.type = "freshness" && i.blocking) with
      | some _ => { action := "WEB_SEARCH", rationale := "需要获取最新信息" }
      | none =>
        match last_evaluate.issues.find? (fun i => i.type = "gap") with
        | some issue =>
          { action := "RAG"
            rationale := "需要补充" ++
              (match issue.aspect with
               | some a => if a = "" then "相关" else a
               | none => "相关") ++ "信息" }
        | none => { action := "RAG", rationale := "需要收集更多信息" }

/-- The documented fallback policy, written exactly as the specification
states it ("passed-and-no-blocking → FINISH; else first high-severity
blocking conflict → RESOLVE_CONFLICT; else first blocking freshness issue →
WEB_SEARCH; else first gap issue → RAG; else RAG"), to be compared with the
source's `fallback_decision`. -/
def specFallbackAction (e : EvaluateSnapshot) : String :=
  if e.passed ∧ ∀ i ∈ e.issues, ¬ i.blocking then "FINISH"
  else if ∃ i ∈ e.issues, i.type = "conflict" ∧ i.severity = "high" ∧ i.blocking then
    "RESOLVE_CONFLICT"
  else if ∃ i ∈ e.issues, i.type = "freshness" ∧ i.blocking then "WEB_SEARCH"
  else if ∃ i ∈ e.issues, i.type = "gap" then "RAG"
  else "RAG"

end MakeDecision

/-! ## Conflict-resolution validation (`src/core/acts/resolve_conflict.py`) -/

namespace ResolveConflict

/-- A RAG query of a search plan (`{"query": ..., "top_k": N}`). -/
structure RagQueryPlan where
  query : String
  top_k : Int := 3
deriving DecidableEq, Repr

/-- A web query of a search plan. -/
structure WebQueryPlan where
  query : String
  num_results : Int := 3
  params : List (String × String) := []
deriving DecidableEq, Repr

/-- A comparison rubric as handed back by the collaborator: any of its
fields may be missing (the source passes the raw dict through). -/
structure Rubric where
  normalization : Option (List String) := none
  precedence : Option (List String) := none
  comparison_keys : Option (List String) := none
deriving DecidableEq, Repr

/-- The raw JSON object returned by the search-plan collaborator; every
top-level key may be absent. -/
structure RawSearchPlan where
  queries_rag : Option (List RagQueryPlan) := none
  queries_web : Option (List WebQueryPlan) := none
  rubric : Option Rubric := none
deriving DecidableEq, Repr

/-- A validated search plan. -/
structure SearchPlan where
  queries_rag : List RagQueryPlan
  queries_web : List WebQueryPlan
  rubric : Rubric
deriving DecidableEq, Repr

/-- The fixed rubric used when the collaborator returned no `rubric` key at
all (`_validate_search_plan`'s `.get` default). -/
def defaultRubric : Rubric :=
  { normalization := some ["统一标准"]
    precedence := some ["官方 > 学术 > 媒体"]
    comparison_keys := some ["数据来源", "时间范围"] }

/-- `ResolveConflict._validate_search_plan`: each query list defaults to
`[]` and the rubric defaults — as a whole — to `defaultRubric`; nothing is
truncated and individual missing rubric fields are not filled. -/
def validate_search_plan (result : RawSearchPlan) : SearchPlan :=
  { queries_rag := result.queries_rag.getD []
    queries_web := result.queries_web.getD []
    rubric := result.rubric.getD defaultRubric }

/-- One raw entry of the adjudicator's `updated_claims` list; every field
may be absent. -/
structure RawUpdatedClaim where
  claim_id : Option String := none
  action : Option String := none
  new_confidence : Option ℚ := none
  new_text : Option String := none
  supersedes_id : Option String := none
  evidence_ids : Option (List String) := none
  rationale_md : Option String := none
deriving DecidableEq, Repr

/-- The raw `resolution_summary` object; every field may be absent. -/
structure RawResolutionSummary where
  conflict_groups_total : Option Int := none
  groups_resolved : Option Int := none
  remaining_conflicts : Option (List (List String)) := none
deriving DecidableEq, Repr

/-- The raw JSON object returned by the adjudication collaborator. -/
structure RawResolution where
  updated_claims : Option (List RawUpdatedClaim) := none
  resolution_summary : Option RawResolutionSummary := none
deriving DecidableEq, Repr

/-- A validated claim update (dict with `claim_id`, `action`,
`new_confidence` always present and the optional keys present only when the
raw values were truthy). -/
structure ValidatedUpdate where
  claim_id : String
  action : String
  new_confidence : ℚ
  new_text : Option String := none
  supersedes_id : Option String := none
  evidence_ids : Option (List String) := none
  rationale_md : Option String := none
deriving DecidableEq, Repr

/-- A validated resolution summary. -/
structure ValidatedSummary where
  conflict_groups_total : Int
  groups_resolved : Int
  remaining_conflicts : List (List String)
deriving DecidableEq, Repr

/-- A validated resolution. -/
structure ValidatedResolution where
  updated_claims : List ValidatedUpdate
  resolution_summary : ValidatedSummary
deriving DecidableEq, Repr

/-- Python truthiness of an optional list (`None` and `[]` are falsy). -/
def listTruthy {α : Type} (l : Option (List α)) : Bool :=
  match l with
  | none => false
  | some xs => !xs.isEmpty

/-- `ResolveConflict._validate_resolution`: parse whatever entries the raw
result contains, defaulting `claim_id` to `""`, `action` to `"upheld"` and
`new_confidence` to `0.5`; a raw result with no `updated_claims` key yields
an *empty* update list, and a missing summary yields all-zero counters. -/
def validate_resolution (result : RawResolution) : ValidatedResolution :=
  let updated_claims :=
    (result.updated_claims.getD []).map
      (fun cd =>
        { claim_id := cd.claim_id.getD ""
          action := cd.action.getD "upheld"
          new_confidence := cd.new_confidence.getD 0.5
          new_text := if strTruthy cd.new_text then cd.new_text else none
          supersedes_id := if strTruthy cd.supersedes_id then cd.supersedes_id else none
          evidence_ids := if listTruthy cd.evidence_ids then cd.evidence_ids else none
          rationale_md := if strTruthy cd.rationale_md then cd.rationale_md else none })
  let sd := result.resolution_summary.getD {}
  { updated_claims := updated_claims
    resolution_summary :=
      { conflict_groups_total := sd.conflict_groups_total.getD 0
        groups_resolved := sd.groups_resolved.getD 0
        remaining_conflicts := sd.remaining_conflicts.getD [] } }

/-- The pipeline-internal claim dicts handled by
`ResolveConflict._apply_updates` (copies of the active claims, plus the
`retracted` marker key the source may add). -/
structure PClaim where
  id : String
  text : String
  support_ids : List String
  aspects : List String
  confidence : ℚ
  stance : Option String := none
  salience : Option ℚ := none
  retracted : Bool := false
deriving DecidableEq, Repr

/-- One update step of `ResolveConflict._apply_updates` (note: unlike the
ledger's `apply_claim_updates`, evidence ids are unioned for *every* action
here, and `retracted` additionally sets the marker).  The source indexes
`update["new_text"]` directly and raises when a `revised` update lacks it;
only non-crashing updates are modelled, reading the text with a default. -/
def applyOnePUpdate (c : PClaim) (u : ValidatedUpdate) : PClaim :=
  let c :=
    if u.action = "upheld" then { c with confidence := u.new_confidence }
    else if u.action = "revised" then
      { c with text := u.new_text.getD "", confidence := u.new_confidence }
    else if u.action = "retracted" then { c with confidence := 0, retracted := true }
    else c
  match u.evidence_ids with
  | some ids => { c with support_ids := dedupUnion c.support_ids ids }
  | none => c

/-- `ResolveConflict._apply_updates`: copy the claims into an id-keyed map
(a later duplicate id shadows an earlier one), apply each update whose
`claim_id` is in the map, and return the map's values filtered to
confidence `> 0`. -/
def apply_updates (claims_active : List PClaim)
    (updated_claims : List ValidatedUpdate) : List PClaim :=
  let m0 : List (String × PClaim) :=
    claims_active.foldl (fun m c => aset m c.id c) []
  let m1 := updated_claims.foldl
    (fun m u =>
      match aget m u.claim_id with
      | none => m
      | some c => aset m u.claim_id (applyOnePUpdate c u))
    m0
  (m1.map (·.2)).filter (fun c => decide (0 < c.confidence))

end ResolveConflict

/-! ## Turn orchestrator main loop
(`src/core/agent_with_memory_content_monitor.py`, `run_turn`)

The loop's interaction with the ledger is projected onto the fields it
reads and writes: the plan list (statuses), the current step id, and the
per-step iteration counters.  Collaborator outputs (evaluator and decider)
only influence the loop through the action chosen each iteration, so they
are modelled as an oracle supplying one `IterEffect` per iteration; proving
a property for every oracle proves it regardless of evaluator or decider
output. -/

namespace Agent

/-- The effect of one loop iteration's decided action on the control state:
`finish` marks the step finished and advances; `search` (the RAG /
WEB_SEARCH branches) leaves statuses and the current step unchanged;
`resolveConflict` marks the step finished — without advancing the current
step — exactly when conflict issues existed and the post-resolution
evaluation succeeded. -/
inductive IterEffect
  | finish
  | search
  | resolveConflict (conflictsExist resolved : Bool)
deriving DecidableEq, Repr

/-- The control-state projection of the ledger used by the main loop. -/
structure LoopState where
  plan : List PlanStep
  current_step_id : Option String
  step_loop_count : List (String × Nat) := []
deriving DecidableEq, Repr

/-- `memory.get_current_step` on the projected state (`if current_step_id:`
treats `None` and `""` as falsy). -/
def getCurrentStep (s : LoopState) : Option PlanStep :=
  match s.current_step_id with
  | none => none
  | some cid => if cid = "" then none else s.plan.find? (fun p => p.step_id = cid)

/-- `_get_next_unfinished_step`: the first plan step whose status is not
`FINISHED`. -/
def nextUnfinished (s : LoopState) : Option PlanStep :=
  s.plan.find? (fun p => p.status ≠ "FINISHED")

/-- The per-step iteration counter (`step_loop_count`, missing keys read
as 0). -/
def countOf (s : LoopState) (id : String) : Nat :=
  (aget s.step_loop_count id).getD 0

/-- `step_loop_count[step.step_id] += 1`. -/
def bumpCount (s : LoopState) (id : String) : LoopState :=
  { s with step_loop_count := aset s.step_loop_count id (countOf s id + 1) }

/-- `memory.set_step_status(..., "FINISHED")` on the projection. -/
def finishStep (s : LoopState) (id : String) : LoopState :=
  { s with plan := MemoryFacade.setStatusFirst id "FINISHED" s.plan }

/-- Mark the given step finished, then either move the current step to the
next unfinished step and continue, or end the loop (the shared tail of the
safety-check branch and the FINISH branch; the `Bool` is whether the loop
continues). -/
def finishAndAdvance (s : LoopState) (id : String) : LoopState × Bool :=
  let s := finishStep s id
  match nextUnfinished s with
  | some n => ({ s with current_step_id := some n.step_id }, true)
  | none => (s, false)

/-- One iteration of the main loop of `run_turn` (lines 149-328): fetch the
current step (exiting when none), bump its counter, force completion when
the counter exceeds 5, and otherwise branch on the decided action. -/
def loopIter (s : LoopState) (eff : IterEffect) : LoopState × Bool :=
  match getCurrentStep s with
  | none => (s, false)
  | some step =>
    let s := bumpCount s step.step_id
    if 5 < countOf s step.step_id then
      finishAndAdvance s step.step_id
    else
      match eff with
      | .finish => finishAndAdvance s step.step_id
      | .search => (s, true)
      | .resolveConflict ce res =>
        if ce && res then (finishStep s step.step_id, true) else (s, true)

/-- The main loop, `while loops < max_loops`, with the oracle indexed by the
remaining budget. -/
def runLoop (o : Nat → IterEffect) : Nat → LoopState → LoopState
  | 0, s => s
  | fuel + 1, s =>
    let r := loopIter s (o fuel)
    if r.2 then runLoop o fuel r.1 else r.1

/-- The status recorded in the plan for a step id (first match, as every
plan-list scan in the source). -/
def statusOf (s : LoopState) (id : String) : Option String :=
  (s.plan.find? (fun p => p.step_id = id)).map (·.status)

/-- Distinctness of the plan's step ids (plan steps are generated with
fresh ids). -/
def planIdsNodup (s : LoopState) : Prop :=
  (s.plan.map (·.step_id)).Nodup

/-- The between-iteration invariant of the loop: step ids are distinct, and
a counter can reach 6 only in the iteration that forces the step to
`FINISHED` and moves the current step away from it. -/
def LoopInv (s : LoopState) : Prop :=
  planIdsNodup s ∧
  ∀ id, countOf s id ≤ 5 ∨
    (countOf s id = 6 ∧ statusOf s id = some "FINISHED" ∧
      s.current_step_id ≠ some id)

/-- The context-prefixing of the working query in `run_turn` (lines 91-98):
when context is requested, previous turns exist and the built context string
is nonempty, the working query used for planning becomes the context
followed by the original question. -/
def planner_query (include_context has_previous_queries : Bool)
    (context_str user_query : String) : String :=
  if include_context then
    if has_previous_queries then
      if context_str ≠ "" then
        context_str ++ "\n\n当前问题: " ++ user_query
      else user_query
    else user_query
  else user_query

/-- The query handed to the output generator (lines 341-342):
`turn_data.get('user_query', user_query)`, where the dict default is the
(possibly context-prefixed) working query. -/
def user_query_for_output (st : MemoryFacade) (sid tid working_query : String) :
    String :=
  match st.getTurn sid tid with
  | none => working_query
  | some td => td.user_query

end Agent

/-! ## Basic lemmas about the association-list helpers -/

theorem aget_aset_self {κ α : Type} [DecidableEq κ] (l : List (κ × α)) (k : κ)
    (v : α) : aget (aset l k v) k = some v := by
  induction l with
  | nil => simp [aset, aget]
  | cons hd tl ih =>
    by_cases h : hd.1 = k
    · simp [aset, aget, h]
    · simp [aset, aget, h, ih]

theorem aget_aset_ne {κ α : Type} [DecidableEq κ] (l : List (κ × α)) (k k' : κ)
    (v : α) (h : k' ≠ k) : aget (aset l k v) k' = aget l k' := by
  induction l with
  | nil => simp [aset, aget, Ne.symm h]
  | cons hd tl ih =>
    obtain ⟨k0, v0⟩ := hd
    by_cases hk : k0 = k
    · subst hk
      simp [aset, aget, Ne.symm h]
    · by_cases hk' : k0 = k'
      · simp [aset, aget, hk, hk', h]
      · simp [aset, aget, hk, hk', ih]

/-! ## C6 — fallback decision policy -/

/-- Neutral metric values for concrete evaluation snapshots. -/
def sampleMetrics : Metrics :=
  { sufficiency := 0.9, reliability := 0.9, consistency := 0.9
    recency := 0.9, diversity := 0.9 }

/-- The scenario snapshot `{passed: true, issues: []}`. -/
def passedNoIssues : EvaluateSnapshot :=
  { metrics := sampleMetrics, issues := [], passed := true
    unmet := [], next_actions := [] }

/-- The scenario snapshot with a single high-severity blocking conflict and
`passed: false`. -/
def highBlockingConflict : EvaluateSnapshot :=
  { metrics := sampleMetrics
    issues := [{ type := "conflict", severity := "high", blocking := true
                 desc := "claims disagree", claims := some ["c1", "c2"] }]
    passed := false, unmet := [], next_actions := [] }

/-- **C6.**  The fallback decision function implements exactly the
documented deterministic policy for every evaluation snapshot —
passed-and-no-blocking gives FINISH, else a high-severity blocking conflict
gives RESOLVE_CONFLICT, else a blocking freshness issue gives WEB_SEARCH,
else a gap (or anything else) gives RAG — and in particular the snapshot
`{passed: true, issues: []}` yields FINISH while `{passed: false}` with one
high-severity blocking conflict yields RESOLVE_CONFLICT. -/
theorem fallback_decision_matches_documented_policy :
    (∀ e : EvaluateSnapshot,
        (MakeDecision.fallback_decision e).action = MakeDecision.specFallbackAction e) ∧
    (MakeDecision.fallback_decision passedNoIssues).action = "FINISH" ∧
    (MakeDecision.fallback_decision highBlockingConflict).action = "RESOLVE_CONFLICT" := by
  refine ⟨?_, by decide, by decide⟩
  intro e
  unfold MakeDecision.fallback_decision MakeDecision.specFallbackAction
  by_cases hp : (e.passed && !e.issues.any (·.blocking)) = true
  · have hp' : e.passed = true ∧ ∀ i ∈ e.issues, ¬ i.blocking = true := by
      simpa [List.any_eq_true] using hp
    simp only [hp, if_true]
    rw [if_pos hp']
  · have hp' : ¬ (e.passed = true ∧ ∀ i ∈ e.issues, ¬ i.blocking = true) := by
      intro hc
      refine hp ?_
      simp only [hc.1, Bool.true_and, Bool.not_eq_true', List.any_eq_false]
      intro x hx
      simpa using hc.2 x hx
    simp only [hp, Bool.false_eq_true, if_false]
    rw [if_neg hp']
    cases h1 : e.issues.find?
        (fun i => i.type = "conflict" && i.severity = "high" && i.blocking) with
    | some i =>
      have hm := List.mem_of_find?_eq_some h1
      have hpi := List.find?_some h1
      rw [if_pos ?_]
      refine ⟨i, hm, ?_⟩
      simpa [and_assoc] using hpi
    | none =>
      rw [if_neg ?_]
      case _ =>
        cases h2 : e.issues.find? (fun i => i.type = "freshness" && i.blocking) with
        | some i =>
          have hm := List.mem_of_find?_eq_some h2
          have hpi := List.find?_some h2
          rw [if_pos ?_]
          refine ⟨i, hm, ?_⟩
          simpa using hpi
        | none =>
          rw [if_neg ?_]
          case _ =>
            cases h3 : e.issues.find? (fun i => i.type = "gap") with
            | some i => by_cases hg : ∃ i ∈ e.issues, i.type = "gap" <;> simp [hg]
            | none => by_cases hg : ∃ i ∈ e.issues, i.type = "gap" <;> simp [hg]
          case _ =>
            intro ⟨i, hm, hti, hbi⟩
            have := List.find?_eq_none.mp h2 i hm
            simp [hti, hbi] at this
      case _ =>
        intro ⟨i, hm, hti, hsi, hbi⟩
        have := List.find?_eq_none.mp h1 i hm
        simp [hti, hsi, hbi] at this

/-! ## C7 — adjudication-failure fallback -/

theorem mem_aset {κ α : Type} [DecidableEq κ] {l : List (κ × α)} {k : κ}
    {v : α} {p : κ × α} (h : p ∈ aset l k v) : p = (k, v) ∨ p ∈ l := by
  induction l with
  | nil => simpa [aset] using h
  | cons hd tl ih =>
    obtain ⟨k0, v0⟩ := hd
    by_cases hk : k0 = k
    · rw [aset, if_pos hk] at h
      rcases List.mem_cons.mp h with h | h
      · exact Or.inl h
      · exact Or.inr (List.mem_cons_of_mem _ h)
    · rw [aset, if_neg hk] at h
      rcases List.mem_cons.mp h with h | h
      · exact Or.inr (by simp [h])
      · rcases ih h with h' | h'
        · exact Or.inl h'
        · exact Or.inr (List.mem_cons_of_mem _ h')

/-- Every value stored in the id-keyed map built by
`ResolveConflict.apply_updates` from the active claims is one of those
claims. -/
theorem apply_updates_map_values_mem (claims : List ResolveConflict.PClaim) :
    ∀ p ∈ claims.foldl (fun m c => aset m c.id c) [],
      p.2 ∈ claims := by
  have key : ∀ (cs : List ResolveConflict.PClaim)
      (m : List (String × ResolveConflict.PClaim)),
      (∀ p ∈ m, p.2 ∈ claims) → (∀ c ∈ cs, c ∈ claims) →
      ∀ p ∈ cs.foldl (fun m c => aset m c.id c) m, p.2 ∈ claims := by
    intro cs
    induction cs with
    | nil => intro m hm _ p hp; exact hm p hp
    | cons c rest ih =>
      intro m hm hcs p hp
      refine ih (aset m c.id c) ?_ (fun x hx => hcs x (List.mem_cons_of_mem _ hx)) p hp
      intro q hq
      rcases mem_aset hq with h | h
      · rw [h]; exact hcs c (List.mem_cons_self _ _)
      · exact hm q h
  exact key claims [] (by simp) (fun c hc => hc)

/-- A turn with a single active claim of confidence 0.9 for the
adjudication-failure scenario. -/
def soleClaim : ResolveConflict.PClaim :=
  { id := "c1", text := "claim one", support_ids := ["e1"], aspects := []
    confidence := 0.9 }

/-- **C7 counterexample.**  On an adjudication result that parses to JSON
with none of the expected fields, `_validate_resolution` produces an *empty*
verdict list — there is no `upheld` verdict for the input claim `c1` — even
though `groups_resolved` is 0 and applying the empty list leaves the claim
untouched.  This refutes the claim that the fallback is "a verdict of
'upheld' for every input claim". -/
theorem validate_resolution_empty_fallback_counterexample :
    (ResolveConflict.validate_resolution {}).updated_claims = [] ∧
    (¬ ∃ u ∈ (ResolveConflict.validate_resolution {}).updated_claims,
        u.claim_id = "c1" ∧ u.action = "upheld") ∧
    (ResolveConflict.validate_resolution {}).resolution_summary.groups_resolved = 0 ∧
    ResolveConflict.apply_updates [soleClaim]
      (ResolveConflict.validate_resolution {}).updated_claims = [soleClaim] := by
  refine ⟨rfl, ?_, rfl, of_decide_eq_true (by with_unfolding_all rfl)⟩
  intro ⟨u, hu, _⟩
  simp [ResolveConflict.validate_resolution] at hu

/-- **C7 (amended).**  When the adjudication result parses to JSON lacking
the expected fields, validation yields an empty verdict list (rather than
per-claim `upheld` verdicts) and `groups_resolved = 0`; applying that
fallback keeps every surviving claim literally one of the input claims, so
no claim's confidence is decreased by the failure. -/
theorem adjudication_failure_preserves_claims :
    ∀ claims : List ResolveConflict.PClaim,
      (ResolveConflict.validate_resolution {}).updated_claims = [] ∧
      (ResolveConflict.validate_resolution {}).resolution_summary.groups_resolved = 0 ∧
      ∀ c ∈ ResolveConflict.apply_updates claims
          (ResolveConflict.validate_resolution {}).updated_claims,
        c ∈ claims := by
  intro claims
  refine ⟨rfl, rfl, ?_⟩
  intro c hc
  have : c ∈ (claims.foldl (fun m c => aset m c.id c) []).map (·.2) := by
    simpa [ResolveConflict.apply_updates, ResolveConflict.validate_resolution]
      using List.mem_of_mem_filter hc
  rcases List.mem_map.mp this with ⟨p, hp, hpc⟩
  rw [← hpc]
  exact apply_updates_map_values_mem claims p hp

/-! ## C10 — search-plan validation -/

/-- A raw search plan with three internal queries and no rubric. -/
def threeRagPlan : ResolveConflict.RawSearchPlan :=
  { queries_rag := some [{ query := "q1" }, { query := "q2" }, { query := "q3" }] }

/-- **C10 counterexample.**  `_validate_search_plan` enforces no cap: a raw
plan with three internal queries validates to three internal queries,
refuting "at most 2 internal (RAG) queries".  Moreover a rubric that is
present but lacks `precedence` is passed through with the field still
missing, and the fixed default used when the rubric is absent altogether has
precedence "official > academic > media", not the claimed
"official/academic > standards/regulatory > vendor > media". -/
theorem validate_search_plan_no_cap_counterexample :
    ¬ ((ResolveConflict.validate_search_plan threeRagPlan).queries_rag.length ≤ 2) ∧
    (ResolveConflict.validate_search_plan
        { rubric := some { normalization := some ["对齐"] } }).rubric.precedence = none ∧
    ResolveConflict.defaultRubric.precedence = some ["官方 > 学术 > 媒体"] := by
  decide

/-- **C10 (amended).**  Phase-1 validation passes the collaborator's query
lists through unchanged (the ≤2 limits are requested only in the prompt, not
enforced) and substitutes the fixed default rubric only when the rubric is
absent as a whole; individually missing rubric fields are not filled. -/
theorem validate_search_plan_passthrough :
    ∀ raw : ResolveConflict.RawSearchPlan,
      (ResolveConflict.validate_search_plan raw).queries_rag = raw.queries_rag.getD [] ∧
      (ResolveConflict.validate_search_plan raw).queries_web = raw.queries_web.getD [] ∧
      (ResolveConflict.validate_search_plan raw).rubric =
        raw.rubric.getD ResolveConflict.defaultRubric := by
  intro raw
  exact ⟨rfl, rfl, rfl⟩

/-! ## C8 — session-archive rollup -/

/-- A claim below the rollup confidence threshold. -/
def lowClaim : Claim :=
  { id := "c1", text := "weak finding", support_ids := [], aspects := []
    confidence := 0.5 }

/-- A ledger whose session `s` has a stale archive and whose turn `t` has no
qualifying claim. -/
def staleState : MemoryFacade :=
  { session_archives := [("s", "Key findings: stale")]
    turn_data := [("s", [("t", { user_query := "q", claims_active := [lowClaim] })])] }

/-- **C8 counterexample.**  When no claim of the current turn qualifies,
`rollup_to_session_archive` writes nothing and the stale prior archive
survives, refuting "after every rollup the session archive reflects exactly
the current turn's qualifying claims". -/
theorem rollup_keeps_stale_archive_counterexample :
    ((staleState.rollup_to_session_archive "s" "t").get_session_archive "s"
      = some "Key findings: stale") ∧
    (staleState.get_claims "s" "t").filter MemoryFacade.rollupQualifies = [] ∧
    "Key findings: stale" ≠ "Key findings: " := by
  refine ⟨of_decide_eq_true (by with_unfolding_all rfl),
    of_decide_eq_true (by with_unfolding_all rfl), by decide⟩

/-- **C8 (amended).**  `rollup_to_session_archive` selects the current
turn's claims with confidence ≥ 0.7 and `(salience or 0.5)` ≥ 0.5, and —
when at least one qualifies — replaces the session archive (independently of
its prior contents) with the concatenated texts of the first five qualifying
claims; when none qualifies, the prior archive is left unchanged. -/
theorem rollup_archive_replacement :
    ∀ (st : MemoryFacade) (sid tid : String),
      (st.rollup_to_session_archive sid tid).get_session_archive sid =
        (let hq := (st.get_claims sid tid).filter MemoryFacade.rollupQualifies
         if hq.isEmpty then st.get_session_archive sid
         else some ("Key findings: " ++
           String.intercalate "; " ((hq.take 5).map (·.text)))) := by
  intro st sid tid
  unfold MemoryFacade.rollup_to_session_archive MemoryFacade.get_claims
    MemoryFacade.get_session_archive
  by_cases h :
      (((st.getTurn sid tid).getD {}).claims_active.filter
        MemoryFacade.rollupQualifies).isEmpty
  · simp [h]
  · simp [h, aget_aset_self]

/-! ## Ledger plumbing lemmas -/

theorem getTurn_setTurn_self (st : MemoryFacade) (sid tid : String)
    (td : TurnData) : (st.setTurn sid tid td).getTurn sid tid = some td := by
  unfold MemoryFacade.setTurn MemoryFacade.getTurn
  simp [aget_aset_self]

theorem getTurn_setTurn_ne (st : MemoryFacade) (sid tid sid' tid' : String)
    (td : TurnData) (h : ¬ (sid' = sid ∧ tid' = tid)) :
    (st.setTurn sid tid td).getTurn sid' tid' = st.getTurn sid' tid' := by
  unfold MemoryFacade.setTurn MemoryFacade.getTurn
  by_cases hs : sid' = sid
  · subst hs
    have ht : tid' ≠ tid := fun hh => h ⟨rfl, hh⟩
    simp only [aget_aset_self, Option.bind]
    rw [aget_aset_ne _ _ _ _ ht]
    cases hg : aget st.turn_data sid' with
    | none => simp [hg, aget]
    | some ts => simp [hg]
  · rw [aget_aset_ne _ _ _ _ hs]

theorem appendPatch_turn_data (st : MemoryFacade) (sid tid pid step_id : String)
    (patch : PlanPatch) :
    (st.appendPatch sid tid pid step_id patch).turn_data = st.turn_data := by
  unfold MemoryFacade.appendPatch
  cases aget st.plan_data (sid, tid, pid) <;> rfl

theorem appendPatch_evidence_index (st : MemoryFacade)
    (sid tid pid step_id : String) (patch : PlanPatch) :
    (st.appendPatch sid tid pid step_id patch).evidence_index =
      st.evidence_index := by
  unfold MemoryFacade.appendPatch
  cases aget st.plan_data (sid, tid, pid) <;> rfl

theorem getTurn_appendPatch (st : MemoryFacade) (sid tid pid step_id : String)
    (patch : PlanPatch) (sid' tid' : String) :
    (st.appendPatch sid tid pid step_id patch).getTurn sid' tid' =
      st.getTurn sid' tid' := by
  unfold MemoryFacade.getTurn
  rw [appendPatch_turn_data]

theorem isSome_aget_aset {κ α : Type} [DecidableEq κ] (l : List (κ × α))
    (k fp : κ) (v : α) (h : (aget l fp).isSome) :
    (aget (aset l k v) fp).isSome := by
  by_cases hk : fp = k
  · subst hk
    simp [aget_aset_self]
  · rwa [aget_aset_ne _ _ _ _ hk]

theorem add_evidences_loop_index_mono (evs : List EvidenceItem) :
    ∀ (index : List (String × EvidenceItem)) (active : List EvidenceItem)
      (ids : List String) (fp : String),
      (aget index fp).isSome →
      (aget (MemoryFacade.add_evidences_loop index active ids evs).1 fp).isSome := by
  induction evs with
  | nil => intro index active ids fp h; simpa [MemoryFacade.add_evidences_loop] using h
  | cons e rest ih =>
    intro index active ids fp h
    unfold MemoryFacade.add_evidences_loop
    by_cases hd : (aget index (generate_fingerprint e.text e.source.url)).isSome
    · simpa [hd] using ih index active ids fp h
    · simp only [hd, Bool.false_eq_true, if_false]
      exact ih _ _ _ fp (isSome_aget_aset _ _ _ _ h)

/-! Frame lemmas: how each ledger operation affects the evidence index and
the turn table. -/

theorem setTurn_evidence_index (st : MemoryFacade) (sid tid : String)
    (td : TurnData) : (st.setTurn sid tid td).evidence_index = st.evidence_index :=
  rfl

theorem begin_turn_evidence_index (st : MemoryFacade) (sid tid q : String) :
    (st.begin_turn sid tid q).evidence_index = st.evidence_index := by
  unfold MemoryFacade.begin_turn
  dsimp only
  split <;> rfl

theorem add_evidences_evidence_index (st : MemoryFacade)
    (sid tid pid : String) (evs : List EvidenceItem) :
    (st.add_evidences sid tid pid evs).1.evidence_index =
      (match st.getTurn sid tid with
       | none => st.evidence_index
       | some td =>
         (MemoryFacade.add_evidences_loop st.evidence_index
           td.evidences_active [] evs).1) := by
  unfold MemoryFacade.add_evidences
  cases hg : st.getTurn sid tid with
  | none => rfl
  | some td =>
    dsimp only
    split
    · split
      · split
        · simp [appendPatch_evidence_index, setTurn_evidence_index]
        · rfl
      · rfl
    · rfl

theorem merge_claims_evidence_index (st : MemoryFacade)
    (sid tid pid : String) (cs : List Claim) :
    (st.merge_claims sid tid pid cs).evidence_index = st.evidence_index := by
  unfold MemoryFacade.merge_claims
  cases hg : st.getTurn sid tid with
  | none => rfl
  | some td =>
    dsimp only
    split
    · split
      · split
        · simp [appendPatch_evidence_index, setTurn_evidence_index]
        · rfl
      · rfl
    · rfl

theorem apply_claim_updates_evidence_index (st : MemoryFacade)
    (sid tid : String) (us : List MemoryFacade.ClaimUpdate) :
    (st.apply_claim_updates sid tid us).evidence_index = st.evidence_index := by
  unfold MemoryFacade.apply_claim_updates
  cases hg : st.getTurn sid tid with
  | none => rfl
  | some td => rfl

theorem set_evaluate_evidence_index (st : MemoryFacade)
    (sid tid pid : String) (snap : EvaluateSnapshot) :
    (st.set_evaluate sid tid pid snap).evidence_index = st.evidence_index := by
  unfold MemoryFacade.set_evaluate
  dsimp only
  split
  · split
    · split
      · split <;> simp [appendPatch_evidence_index, setTurn_evidence_index]
      · rfl
    · rfl
  · rfl

theorem rollup_evidence_index (st : MemoryFacade) (sid tid : String) :
    (st.rollup_to_session_archive sid tid).evidence_index = st.evidence_index := by
  unfold MemoryFacade.rollup_to_session_archive
  dsimp only
  split <;> rfl

theorem set_plan_list_evidence_index (st : MemoryFacade) (sid tid : String)
    (steps : List PlanStep) :
    (st.set_plan_list sid tid steps).evidence_index = st.evidence_index := by
  unfold MemoryFacade.set_plan_list
  cases steps <;> rfl

theorem applyOp_index_mono (st : MemoryFacade) (op : Op) (fp : String)
    (h : (aget st.evidence_index fp).isSome) :
    (aget (applyOp st op).evidence_index fp).isSome := by
  cases op with
  | beginTurn sid tid q =>
    simpa [applyOp, begin_turn_evidence_index] using h
  | beginPlan sid tid pid be bc =>
    simpa [applyOp, MemoryFacade.begin_plan] using h
  | addEvidences sid tid pid evs =>
    have he := add_evidences_evidence_index st sid tid pid evs
    simp only [applyOp]
    rw [he]
    cases hg : st.getTurn sid tid with
    | none => exact h
    | some td =>
      exact add_evidences_loop_index_mono evs st.evidence_index
        td.evidences_active [] fp h
  | mergeClaims sid tid pid cs =>
    simpa [applyOp, merge_claims_evidence_index] using h
  | applyClaimUpdates sid tid us =>
    simpa [applyOp, apply_claim_updates_evidence_index] using h
  | setEvaluate sid tid pid snap =>
    simpa [applyOp, set_evaluate_evidence_index] using h
  | rollup sid tid =>
    simpa [applyOp, rollup_evidence_index] using h
  | setPlanList sid tid steps =>
    simpa [applyOp, set_plan_list_evidence_index] using h
  | setCurrentStep sid tid s' =>
    simpa [applyOp, MemoryFacade.set_current_step, setTurn_evidence_index] using h
  | setStepStatus sid tid s' stat =>
    unfold applyOp MemoryFacade.set_step_status
    cases hg : st.getTurn sid tid with
    | none => simpa [hg] using h
    | some td => simpa [hg, setTurn_evidence_index] using h
  | recordAction sid tid log =>
    simpa [applyOp, MemoryFacade.record_action] using h
  | setSessionConfig sid cfg =>
    simpa [applyOp, MemoryFacade.set_session_config] using h

theorem applyOps_index_mono (ops : List Op) :
    ∀ (st : MemoryFacade) (fp : String),
      (aget st.evidence_index fp).isSome →
      (aget (applyOps st ops).evidence_index fp).isSome := by
  induction ops with
  | nil => intro st fp h; simpa [applyOps] using h
  | cons op rest ih =>
    intro st fp h
    exact ih (applyOp st op) fp (applyOp_index_mono st op fp h)

/-! ## C1 — global evidence deduplication -/

theorem add_evidences_ids (st : MemoryFacade) (sid tid pid : String)
    (evs : List EvidenceItem) (td : TurnData) (hg : st.getTurn sid tid = some td) :
    (st.add_evidences sid tid pid evs).2 =
      (MemoryFacade.add_evidences_loop st.evidence_index
        td.evidences_active [] evs).2.2 := by
  unfold MemoryFacade.add_evidences
  rw [hg]

theorem add_evidences_getTurn_self (st : MemoryFacade) (sid tid pid : String)
    (evs : List EvidenceItem) (td : TurnData) (hg : st.getTurn sid tid = some td) :
    (st.add_evidences sid tid pid evs).1.getTurn sid tid =
      some { td with evidences_active :=
        (MemoryFacade.add_evidences_loop st.evidence_index
          td.evidences_active [] evs).2.1 } := by
  unfold MemoryFacade.add_evidences
  rw [hg]
  dsimp only
  split
  · split
    · split
      · rw [getTurn_appendPatch, getTurn_setTurn_self]
      · rw [getTurn_setTurn_self]
    · rw [getTurn_setTurn_self]
  · rw [getTurn_setTurn_self]

/-- **C1.**  Evidence dedup is global and keyed by the `(url, text)`
fingerprint: (i) equal `(url, text)` pairs always produce equal
fingerprints; (ii) inside a call, an item whose fingerprint is already in
the process-wide index is skipped entirely — nothing is appended to any
active set and no id is returned for it; (iii) an item with a fresh
fingerprint is appended to the turn's active set, registered in the index
and its id returned; (iv) a call on an existing turn returns exactly the
loop's new ids, extends the turn's active evidence to the loop's result and
replaces the index with the loop's index; (v) after any single-item call on
an existing turn the item's fingerprint is registered; and (vi) a
registered fingerprint stays registered across every later ledger operation
— so a second submission of the same `(url, text)`, in the same or any
later call, query or turn, is silently dropped. -/
theorem add_evidences_global_dedup :
    (∀ e e' : EvidenceItem, e.source.url = e'.source.url → e.text = e'.text →
      generate_fingerprint e.text e.source.url =
        generate_fingerprint e'.text e'.source.url) ∧
    (∀ (index : List (String × EvidenceItem)) (active : List EvidenceItem)
        (ids : List String) (e : EvidenceItem) (rest : List EvidenceItem),
      (aget index (generate_fingerprint e.text e.source.url)).isSome →
      MemoryFacade.add_evidences_loop index active ids (e :: rest) =
        MemoryFacade.add_evidences_loop index active ids rest) ∧
    (∀ (index : List (String × EvidenceItem)) (active : List EvidenceItem)
        (ids : List String) (e : EvidenceItem) (rest : List EvidenceItem),
      ¬ (aget index (generate_fingerprint e.text e.source.url)).isSome →
      MemoryFacade.add_evidences_loop index active ids (e :: rest) =
        MemoryFacade.add_evidences_loop
          (aset index (generate_fingerprint e.text e.source.url) e)
          (active ++ [e]) (ids ++ [e.id]) rest) ∧
    (∀ (st : MemoryFacade) (sid tid pid : String) (evs : List EvidenceItem)
        (td : TurnData), st.getTurn sid tid = some td →
      (st.add_evidences sid tid pid evs).2 =
          (MemoryFacade.add_evidences_loop st.evidence_index
            td.evidences_active [] evs).2.2 ∧
        (st.add_evidences sid tid pid evs).1.getTurn sid tid =
          some { td with evidences_active :=
            (MemoryFacade.add_evidences_loop st.evidence_index
              td.evidences_active [] evs).2.1 } ∧
        (st.add_evidences sid tid pid evs).1.evidence_index =
          (MemoryFacade.add_evidences_loop st.evidence_index
            td.evidences_active [] evs).1) ∧
    (∀ (st : MemoryFacade) (sid tid pid : String) (e : EvidenceItem)
        (td : TurnData), st.getTurn sid tid = some td →
      (aget (st.add_evidences sid tid pid [e]).1.evidence_index
        (generate_fingerprint e.text e.source.url)).isSome) ∧
    (∀ (st : MemoryFacade) (ops : List Op) (fp : String),
      (aget st.evidence_index fp).isSome →
      (aget (applyOps st ops).evidence_index fp).isSome) := by
  refine ⟨?_, ?_, ?_, ?_, ?_, ?_⟩
  · intro e e' hu ht
    rw [hu, ht]
  · intro index active ids e rest hd
    unfold MemoryFacade.add_evidences_loop
    simp only [hd, if_true]
    cases rest <;> rfl
  · intro index active ids e rest hd
    unfold MemoryFacade.add_evidences_loop
    simp only [hd, Bool.false_eq_true, if_false]
    cases rest <;> rfl
  · intro st sid tid pid evs td hg
    refine ⟨add_evidences_ids st sid tid pid evs td hg,
      add_evidences_getTurn_self st sid tid pid evs td hg, ?_⟩
    rw [add_evidences_evidence_index, hg]
  · intro st sid tid pid e td hg
    rw [add_evidences_evidence_index, hg]
    by_cases hd : (aget st.evidence_index
        (generate_fingerprint e.text e.source.url)).isSome
    · simp only [MemoryFacade.add_evidences_loop, hd, if_true]
    · simp only [MemoryFacade.add_evidences_loop, hd, Bool.false_eq_true, if_false]
      simp [aget_aset_self]
  · intro st ops fp h
    exact applyOps_index_mono ops st fp h

/-- First submission of the pair `(u1, t1)`. -/
def ev1 : EvidenceItem :=
  { id := "e1", source := { url := "u1", domain := "d1", type := "web" }
    time := "2024-01", text := "t1" }

/-- Second submission of the same `(url, text)` pair under a different id. -/
def ev2 : EvidenceItem :=
  { id := "e2", source := { url := "u1", domain := "d2", type := "internal" }
    time := "2024-02", text := "t1" }

/-- A ledger with one begun turn. -/
def dedupLedger0 : MemoryFacade := MemoryFacade.begin_turn {} "s" "t" "q"

/-- The same ledger after `ev1` was committed. -/
def dedupLedger1 : MemoryFacade :=
  (dedupLedger0.add_evidences "s" "t" "p" [ev1]).1

/-- Witness for C1: submitting `ev2` — same `(url, text)` as the already
committed `ev1` — yields no new id and leaves the turn's active evidence
unchanged. -/
theorem add_evidences_global_dedup_witness :
    (dedupLedger1.add_evidences "s" "t" "p" [ev2]).2 = [] ∧
    (dedupLedger1.add_evidences "s" "t" "p" [ev2]).1.getTurn "s" "t" =
      some { user_query := "q", evidences_active := [ev1] } := by
  have htd : dedupLedger1.getTurn "s" "t" =
      some { user_query := "q", evidences_active := [ev1] } :=
    of_decide_eq_true (by with_unfolding_all rfl)
  have hdup : (aget dedupLedger1.evidence_index
      (generate_fingerprint ev2.text ev2.source.url)).isSome :=
    of_decide_eq_true (by with_unfolding_all rfl)
  have hmain := add_evidences_global_dedup.2.2.2.1 dedupLedger1 "s" "t" "p" [ev2]
    { user_query := "q", evidences_active := [ev1] } htd
  have hskip := add_evidences_global_dedup.2.1 dedupLedger1.evidence_index
    [ev1] [] ev2 [] hdup
  have h1 : (dedupLedger1.add_evidences "s" "t" "p" [ev2]).2 =
      (MemoryFacade.add_evidences_loop dedupLedger1.evidence_index
        [ev1] [] [ev2]).2.2 := hmain.1
  have h2 : (dedupLedger1.add_evidences "s" "t" "p" [ev2]).1.getTurn "s" "t" =
      some { user_query := "q", evidences_active :=
        (MemoryFacade.add_evidences_loop dedupLedger1.evidence_index
          [ev1] [] [ev2]).2.1 } := hmain.2.1
  refine ⟨?_, ?_⟩
  · rw [h1, hskip]
    rfl
  · rw [h2, hskip]
    rfl

/-! ## C2 — monotonic claim merge -/

theorem pyOrQ_some (v d : ℚ) : pyOrQ (some v) d = if v = 0 then d else v := rfl

theorem pyOrQ_none (d : ℚ) : pyOrQ none d = d := rfl

theorem pyOrQ_zero_nonneg (s : Option ℚ) (h : ∀ v, s = some v → 0 ≤ v) :
    0 ≤ pyOrQ s 0 := by
  cases s with
  | none => simp [pyOrQ]
  | some v =>
    by_cases hv : v = 0
    · simp [pyOrQ, hv]
    · simpa [pyOrQ, hv] using h v rfl

/-- Closed form of the in-place merge body of `merge_claims`. -/
theorem mergeExisting_def (old n : Claim) :
    MemoryFacade.mergeExisting old n =
      { id := old.id
        text := old.text
        support_ids := dedupUnion old.support_ids n.support_ids
        aspects := if n.aspects ≠ [] then dedupUnion old.aspects n.aspects
          else old.aspects
        confidence := max old.confidence n.confidence
        stance := if strTruthy n.stance then n.stance else old.stance
        salience :=
          match n.salience with
          | some v => if v = 0 then old.salience
              else some (max (pyOrQ old.salience 0) v)
          | none => old.salience } := by
  unfold MemoryFacade.mergeExisting
  dsimp only
  by_cases h1 : strTruthy n.stance = true <;>
    by_cases h3 : n.aspects = [] <;>
      (cases h2 : n.salience with
       | none => simp [h1, h3, h2]
       | some v => by_cases h4 : v = 0 <;> simp [h1, h3, h2, h4])

theorem mergeExisting_id (old n : Claim) :
    (MemoryFacade.mergeExisting old n).id = old.id := by
  rw [mergeExisting_def]

/-- Field-level specification of the in-place merge of `merge_claims`:
support ids are unioned, confidence is the max (hence never decreases),
stance is overwritten exactly when the new stance is present, salience read
through Python's `or 0` is the max of the two such readings, aspects are
unioned, and id/text are untouched. -/
theorem mergeExisting_spec (old n : Claim)
    (h1 : ∀ v, old.salience = some v → 0 ≤ v)
    (h2 : ∀ v, n.salience = some v → 0 ≤ v) :
    (MemoryFacade.mergeExisting old n).id = old.id ∧
    (MemoryFacade.mergeExisting old n).text = old.text ∧
    (∀ x, x ∈ (MemoryFacade.mergeExisting old n).support_ids ↔
      x ∈ old.support_ids ∨ x ∈ n.support_ids) ∧
    (MemoryFacade.mergeExisting old n).confidence = max old.confidence n.confidence ∧
    old.confidence ≤ (MemoryFacade.mergeExisting old n).confidence ∧
    (MemoryFacade.mergeExisting old n).stance =
      (if strTruthy n.stance then n.stance else old.stance) ∧
    pyOrQ (MemoryFacade.mergeExisting old n).salience 0 =
      max (pyOrQ old.salience 0) (pyOrQ n.salience 0) ∧
    (∀ x, x ∈ (MemoryFacade.mergeExisting old n).aspects ↔
      x ∈ old.aspects ∨ x ∈ n.aspects) := by
  have hsal : (MemoryFacade.mergeExisting old n).salience =
      (match n.salience with
       | some v => if v = 0 then old.salience
           else some (max (pyOrQ old.salience 0) v)
       | none => old.salience) := by
    rw [mergeExisting_def]
  refine ⟨mergeExisting_id old n, ?_, ?_, ?_, ?_, ?_, ?_, ?_⟩
  · rw [mergeExisting_def]
  · intro x
    have hs : (MemoryFacade.mergeExisting old n).support_ids =
        dedupUnion old.support_ids n.support_ids := by
      rw [mergeExisting_def]
    simp [hs, dedupUnion, List.mem_dedup, List.mem_append]
  · rw [mergeExisting_def]
  · have hc : (MemoryFacade.mergeExisting old n).confidence =
        max old.confidence n.confidence := by
      rw [mergeExisting_def]
    rw [hc]
    exact le_max_left _ _
  · rw [mergeExisting_def]
  · rw [hsal]
    cases hn : n.salience with
    | none =>
      dsimp only
      have h0 : pyOrQ (none : Option ℚ) 0 = 0 := rfl
      rw [h0, max_eq_left (pyOrQ_zero_nonneg old.salience h1)]
    | some v =>
      dsimp only
      by_cases hv : v = 0
      · have hlhs : (if v = (0 : ℚ) then old.salience
            else some (max (pyOrQ old.salience 0) v)) = old.salience := by
          simp [hv]
        rw [hlhs]
        have h0 : pyOrQ (some v) 0 = 0 := by rw [pyOrQ_some, if_pos hv]
        rw [h0, max_eq_left (pyOrQ_zero_nonneg old.salience h1)]
      · have hlhs : (if v = (0 : ℚ) then old.salience
            else some (max (pyOrQ old.salience 0) v)) =
            some (max (pyOrQ old.salience 0) v) := by simp [hv]
        rw [hlhs]
        have hrhs : pyOrQ (some v) 0 = v := by rw [pyOrQ_some, if_neg hv]
        rw [hrhs]
        by_cases hM : max (pyOrQ old.salience 0) v = 0
        · rw [pyOrQ_some, if_pos hM, hM]
        · rw [pyOrQ_some, if_neg hM]
  · intro x
    have ha : (MemoryFacade.mergeExisting old n).aspects =
        (if n.aspects ≠ [] then dedupUnion old.aspects n.aspects
         else old.aspects) := by
      rw [mergeExisting_def]
    rw [ha]
    by_cases hasp : n.aspects = []
    · simp [hasp]
    · simp [hasp, dedupUnion, List.mem_dedup, List.mem_append]

/-- With pairwise-distinct incoming ids, a claim of the incoming list is the
first (and only) one found for its id. -/
theorem find?_id_self {cs : List Claim} (hnod : (cs.map (·.id)).Nodup)
    {n : Claim} (hn : n ∈ cs) :
    cs.find? (fun m => m.id = n.id) = some n := by
  induction cs with
  | nil => cases hn
  | cons c rest ih =>
    rw [List.map_cons, List.nodup_cons] at hnod
    rcases List.mem_cons.mp hn with h | h
    · subst h
      simp [List.find?]
    · have hne : ¬ (c.id = n.id) :=
        fun he => hnod.1 (he ▸ List.mem_map_of_mem (·.id) h)
      have hstep : (c :: rest).find? (fun m => m.id = n.id) =
          rest.find? (fun m => m.id = n.id) := by
        simp [List.find?, hne]
      rw [hstep]
      exact ih hnod.2 h

/-- The per-existing-claim transformation a whole `merge_claims` call
applies (snapshot-membership test, merge with the unique incoming claim of
the same id when it exists). -/
def mergeResult (snap : List String) (cs : List Claim) (c : Claim) : Claim :=
  if snap.contains c.id then
    match cs.find? (fun n => n.id = c.id) with
    | some n => MemoryFacade.mergeExisting c n
    | none => c
  else c

/-- Closed form of `merge_claims_loop`: every existing claim is merged with
the unique incoming claim of its id (if any), and incoming claims whose ids
are not in the call-start snapshot are appended in order. -/
theorem merge_claims_loop_formula :
    ∀ (cs : List Claim) (snap : List String) (active : List Claim),
      (cs.map (·.id)).Nodup →
      (∀ c ∈ active, ∀ n ∈ cs, c.id = n.id → snap.contains c.id) →
      MemoryFacade.merge_claims_loop snap active cs =
        active.map (mergeResult snap cs) ++
          cs.filter (fun n => !snap.contains n.id) := by
  intro cs
  induction cs with
  | nil =>
    intro snap active _ _
    have hid : mergeResult snap [] = fun c => c := by
      funext c
      unfold mergeResult
      simp [List.find?]
    simp [MemoryFacade.merge_claims_loop, hid]
  | cons n rest ih =>
    intro snap active hnod hinv
    have hnodr : (rest.map (·.id)).Nodup := by
      rw [List.map_cons, List.nodup_cons] at hnod
      exact hnod.2
    have hid_notin : n.id ∉ rest.map (·.id) := by
      rw [List.map_cons, List.nodup_cons] at hnod
      exact hnod.1
    by_cases hsn : snap.contains n.id
    · have hstep : MemoryFacade.merge_claims_loop snap active (n :: rest) =
          MemoryFacade.merge_claims_loop snap
            (active.map (fun c => if c.id = n.id then
              MemoryFacade.mergeExisting c n else c)) rest := by
        unfold MemoryFacade.merge_claims_loop
        simp only [hsn, if_true]
        cases rest <;> rfl
      rw [hstep, ih snap _ hnodr ?hinv]
      case hinv =>
        intro c hc m hm hcm
        rcases List.mem_map.mp hc with ⟨c0, hc0, hc0e⟩
        have hcid : c.id = c0.id := by
          rw [← hc0e]
          by_cases h : c0.id = n.id
          · simp [h, mergeExisting_id]
          · simp [h]
        rw [hcid] at hcm ⊢
        exact hinv c0 hc0 m (List.mem_cons_of_mem _ hm) hcm
      have hfilter : (n :: rest).filter (fun m => !snap.contains m.id) =
          rest.filter (fun m => !snap.contains m.id) := by
        rw [List.filter_cons]
        have hmem : n.id ∈ snap := by simpa using hsn
        simp [hmem]
      rw [hfilter]
      congr 1
      rw [List.map_map]
      refine List.map_congr_left ?_
      intro c hc
      simp only [Function.comp]
      by_cases hcn : c.id = n.id
      · have hupd : (if c.id = n.id then MemoryFacade.mergeExisting c n else c) =
            MemoryFacade.mergeExisting c n := if_pos hcn
        rw [hupd]
        unfold mergeResult
        rw [mergeExisting_id, hcn]
        have hfind1 : rest.find? (fun m => m.id = n.id) = none := by
          rw [List.find?_eq_none]
          intro m hm
          simp only [decide_eq_true_eq]
          intro he
          exact hid_notin (he ▸ List.mem_map_of_mem (·.id) hm)
        have hfind2 : (n :: rest).find? (fun m => m.id = n.id) = some n := by
          simp [List.find?]
        rw [hfind1, hfind2]
        have hmem : n.id ∈ snap := by simpa using hsn
        simp [hsn, hmem]
      · have hupd : (if c.id = n.id then MemoryFacade.mergeExisting c n else c) =
            c := if_neg hcn
        rw [hupd]
        unfold mergeResult
        have hne2 : ¬ (n.id = c.id) := fun he => hcn he.symm
        have hfs : (n :: rest).find? (fun m => m.id = c.id) =
            rest.find? (fun m => m.id = c.id) := by
          simp [List.find?, hne2]
        rw [hfs]
    · have hstep : MemoryFacade.merge_claims_loop snap active (n :: rest) =
          MemoryFacade.merge_claims_loop snap (active ++ [n]) rest := by
        unfold MemoryFacade.merge_claims_loop
        simp only [hsn, Bool.false_eq_true, if_false]
        cases rest <;> rfl
      rw [hstep, ih snap _ hnodr ?hinv2]
      case hinv2 =>
        intro c hc m hm hcm
        rcases List.mem_append.mp hc with hc | hc
        · exact hinv c hc m (List.mem_cons_of_mem _ hm) hcm
        · have : c = n := by simpa using hc
          subst this
          exact absurd (hcm ▸ List.mem_map_of_mem (·.id) hm) hid_notin
      have hfilter : (n :: rest).filter (fun m => !snap.contains m.id) =
          n :: rest.filter (fun m => !snap.contains m.id) := by
        rw [List.filter_cons]
        have hmem : n.id ∉ snap := by simpa using hsn
        simp [hmem]
      rw [hfilter, List.map_append]
      have hn_fix : mergeResult snap rest n = n := by
        unfold mergeResult
        rw [if_neg hsn]
      have hmap : active.map (mergeResult snap rest) =
          active.map (mergeResult snap (n :: rest)) := by
        refine List.map_congr_left ?_
        intro c hc
        by_cases hcc : snap.contains c.id
        · have hcn : ¬ (n.id = c.id) := by
            intro he
            exact hsn (he ▸ hcc)
          have hfq : (n :: rest).find? (fun m => m.id = c.id) =
              rest.find? (fun m => m.id = c.id) := by
            simp [List.find?, hcn]
          have hmem : c.id ∈ snap := by simpa using hcc
          simp [mergeResult, hcc, hmem, hfq]
        · have hmem : c.id ∉ snap := by simpa using hcc
          simp [mergeResult, hcc, hmem]
      rw [List.map_cons, hn_fix, hmap]
      simp

theorem merge_claims_getTurn_self (st : MemoryFacade) (sid tid pid : String)
    (cs : List Claim) (td : TurnData) (hg : st.getTurn sid tid = some td) :
    (st.merge_claims sid tid pid cs).getTurn sid tid =
      some { td with claims_active :=
              (MemoryFacade.merge_claims_loop (td.claims_active.map (·.id))
                td.claims_active cs) } := by
  unfold MemoryFacade.merge_claims
  rw [hg]
  dsimp only
  split
  · split
    · split
      · rw [getTurn_appendPatch, getTurn_setTurn_self]
      · rw [getTurn_setTurn_self]
    · rw [getTurn_setTurn_self]
  · rw [getTurn_setTurn_self]

/-- **C2.**  For every `merge_claims` call on a turn whose active claim ids
are distinct and whose incoming claim ids are distinct (salience values
being nonnegative, as the `[0,1]` data model requires): the stored claim for
each incoming claim whose id already exists afterwards has the union of the
support ids, `max` of the confidences (never decreasing), the stance
overwritten exactly when the new stance is present, `max` of the
`(salience or 0)` readings, the union of the aspects and the original text;
incoming claims with unseen ids are appended as-is. -/
theorem merge_claims_monotonic_merge (st : MemoryFacade)
    (sid tid pid : String) (cs : List Claim) (td : TurnData)
    (hg : st.getTurn sid tid = some td)
    (hnodA : (td.claims_active.map (·.id)).Nodup)
    (hnodC : (cs.map (·.id)).Nodup)
    (hsalA : ∀ c ∈ td.claims_active, ∀ v, c.salience = some v → 0 ≤ v)
    (hsalC : ∀ c ∈ cs, ∀ v, c.salience = some v → 0 ≤ v) :
    (st.merge_claims sid tid pid cs).getTurn sid tid =
      some { td with claims_active :=
              (td.claims_active.map
                  (mergeResult (td.claims_active.map (·.id)) cs) ++
                cs.filter (fun n =>
                  !(td.claims_active.map (·.id)).contains n.id)) } ∧
    (∀ n ∈ cs, ∀ old ∈ td.claims_active, old.id = n.id →
      mergeResult (td.claims_active.map (·.id)) cs old =
          MemoryFacade.mergeExisting old n ∧
        (∀ x, x ∈ (MemoryFacade.mergeExisting old n).support_ids ↔
          x ∈ old.support_ids ∨ x ∈ n.support_ids) ∧
        (MemoryFacade.mergeExisting old n).confidence =
          max old.confidence n.confidence ∧
        old.confidence ≤ (MemoryFacade.mergeExisting old n).confidence ∧
        (MemoryFacade.mergeExisting old n).stance =
          (if strTruthy n.stance then n.stance else old.stance) ∧
        pyOrQ (MemoryFacade.mergeExisting old n).salience 0 =
          max (pyOrQ old.salience 0) (pyOrQ n.salience 0) ∧
        (∀ x, x ∈ (MemoryFacade.mergeExisting old n).aspects ↔
          x ∈ old.aspects ∨ x ∈ n.aspects) ∧
        (MemoryFacade.mergeExisting old n).id = old.id ∧
        (MemoryFacade.mergeExisting old n).text = old.text) ∧
    (∀ n ∈ cs, (∀ old ∈ td.claims_active, old.id ≠ n.id) →
      mergeResult (td.claims_active.map (·.id)) cs n = n ∧
      n ∈ cs.filter (fun m =>
        !(td.claims_active.map (·.id)).contains m.id)) := by
  have hform := merge_claims_loop_formula cs (td.claims_active.map (·.id))
    td.claims_active hnodC
    (fun c hc _ _ _ => List.elem_iff.mpr (List.mem_map_of_mem _ hc))
  refine ⟨?_, ?_, ?_⟩
  · rw [merge_claims_getTurn_self st sid tid pid cs td hg, hform]
  · intro n hn old hold holdid
    have hcont : (td.claims_active.map (·.id)).contains old.id :=
      List.elem_iff.mpr (List.mem_map_of_mem _ hold)
    have hfind : cs.find? (fun m => m.id = old.id) = some n := by
      rw [holdid]
      exact find?_id_self hnodC hn
    have hres : mergeResult (td.claims_active.map (·.id)) cs old =
        MemoryFacade.mergeExisting old n := by
      unfold mergeResult
      rw [if_pos hcont, hfind]
    have hspec := mergeExisting_spec old n (hsalA old hold) (hsalC n hn)
    exact ⟨hres, hspec.2.2.1, hspec.2.2.2.1, hspec.2.2.2.2.1,
      hspec.2.2.2.2.2.1, hspec.2.2.2.2.2.2.1, hspec.2.2.2.2.2.2.2,
      hspec.1, hspec.2.1⟩
  · intro n hn hfresh
    have hcont : ¬ (td.claims_active.map (·.id)).contains n.id := by
      intro hc
      rcases List.mem_map.mp (List.elem_iff.mp hc) with ⟨old, hold, holde⟩
      exact hfresh old hold holde
    refine ⟨?_, ?_⟩
    · unfold mergeResult
      rw [if_neg hcont]
    · rw [List.mem_filter]
      exact ⟨hn, by simpa using hcont⟩

/-- The pre-existing claim for the merge witness. -/
def oldC1 : Claim :=
  { id := "c1", text := "old text", support_ids := ["e1"]
    aspects := ["alpha"], confidence := 0.5 }

/-- An incoming claim with the same id as `oldC1`. -/
def newC1 : Claim :=
  { id := "c1", text := "new text", support_ids := ["e2"]
    aspects := ["beta"], confidence := 0.7, stance := some "pro" }

/-- An incoming claim with a fresh id. -/
def newC2 : Claim :=
  { id := "c2", text := "fresh", support_ids := [], aspects := []
    confidence := 0.4 }

/-- The merge-witness turn. -/
def mergeTd : TurnData := { user_query := "q", claims_active := [oldC1] }

/-- The merge-witness ledger. -/
def mergeLedger : MemoryFacade := { turn_data := [("s", [("t", mergeTd)])] }

/-- Witness for C2: merging `[newC1, newC2]` into a turn holding `oldC1`
stores the in-place merge of `oldC1` and `newC1` plus the freshly appended
`newC2`. -/
theorem merge_claims_monotonic_merge_witness :
    (mergeLedger.merge_claims "s" "t" "p" [newC1, newC2]).getTurn "s" "t" =
      some { user_query := "q", claims_active :=
              [MemoryFacade.mergeExisting oldC1 newC1, newC2] } := by
  have hsal1 : ∀ c ∈ mergeTd.claims_active, ∀ v : ℚ, c.salience = some v → 0 ≤ v := by
    intro c hc v hv
    simp only [mergeTd, List.mem_singleton] at hc
    subst hc
    simp [oldC1] at hv
  have hsal2 : ∀ c ∈ [newC1, newC2], ∀ v : ℚ, c.salience = some v → 0 ≤ v := by
    intro c hc v hv
    simp only [List.mem_cons, List.mem_singleton, List.not_mem_nil, or_false] at hc
    rcases hc with rfl | rfl
    · simp [newC1] at hv
    · simp [newC2] at hv
  have h := merge_claims_monotonic_merge mergeLedger "s" "t" "p" [newC1, newC2]
    mergeTd (of_decide_eq_true (by with_unfolding_all rfl))
    (of_decide_eq_true (by with_unfolding_all rfl))
    (of_decide_eq_true (by with_unfolding_all rfl))
    hsal1 hsal2
  rw [h.1]
  exact of_decide_eq_true (by with_unfolding_all rfl)

/-! ## C4 — cross-turn inheritance -/

theorem aset_of_forall_ne {κ α : Type} [DecidableEq κ] (l : List (κ × α))
    (k : κ) (v : α) (h : ∀ p ∈ l, p.1 ≠ k) : aset l k v = l ++ [(k, v)] := by
  induction l with
  | nil => rfl
  | cons hd tl ih =>
    have hhd : hd.1 ≠ k := h hd (List.mem_cons_self _ _)
    rw [aset, if_neg hhd, ih (fun p hp => h p (List.mem_cons_of_mem _ hp))]
    rfl

/-- Two evidence items supporting the same prior-turn claim. -/
def evA : EvidenceItem :=
  { id := "e1", source := { url := "ua", domain := "d", type := "web" }
    time := "2024-01", text := "ta" }

/-- See `evA`. -/
def evB : EvidenceItem :=
  { id := "e2", source := { url := "ub", domain := "d", type := "web" }
    time := "2024-01", text := "tb" }

/-- A prior-turn claim qualifying for inheritance (confidence 0.85,
salience 0.7) supported by two evidence items. -/
def strongClaim : Claim :=
  { id := "c1", text := "strong", support_ids := ["e1", "e2"], aspects := []
    confidence := 0.85, salience := some 0.7 }

/-- A prior-turn claim that does not qualify (confidence 0.6,
salience 0.9). -/
def weakClaim : Claim :=
  { id := "c2", text := "weak", support_ids := ["e1"], aspects := []
    confidence := 0.6, salience := some 0.9 }

/-- The prior turn of the inheritance scenario. -/
def inhPrevTd : TurnData :=
  { user_query := "q1", evidences_active := [evA, evB]
    claims_active := [strongClaim, weakClaim] }

/-- A ledger holding one prior turn. -/
def inhLedger : MemoryFacade := { turn_data := [("s", [("t1", inhPrevTd)])] }

/-- **C4 counterexample.**  Beginning a new turn inherits only the
qualifying claim (`strongClaim`, not `weakClaim`) but pulls along *both*
evidence items that support it, refuting "each inherited claim pulls along
at most one supporting evidence item — the first whose id appears in that
claim's support set". -/
theorem begin_turn_inherits_both_evidences_counterexample :
    (inhLedger.begin_turn "s" "t2" "q2").getTurn "s" "t2" =
      some { user_query := "q2", evidences_active := [evA, evB]
             claims_active := [strongClaim] } ∧
    ¬ ([evA, evB].length ≤ 1) := by
  exact ⟨of_decide_eq_true (by with_unfolding_all rfl), by decide⟩

/-- **C4 (amended).**  `begin_turn` inherits from the up-to-two most recent
prior turns exactly the claims with confidence ≥ 0.8 and explicit salience
≥ 0.6 (unset salience never qualifies), and pulls along *every* evidence
item of a scanned turn whose id appears in the support set of at least one
claim inherited so far — not just the first per claim.  Conjuncts:
(i) the code's qualification test equals the spec-level predicate;
(ii)-(iv) closed forms of the inheritance loop on 0, 1 and 2 prior turns,
showing each scanned turn contributes *all* of its supporting evidence;
(v) the new turn holds exactly the loop's result over the last two prior
turns of the session. -/
theorem begin_turn_inheritance_characterization :
    (∀ c : Claim, MemoryFacade.inheritQualifies c = true ↔
      ((0.8 : ℚ) ≤ c.confidence ∧ ∃ sv, c.salience = some sv ∧ (0.6 : ℚ) ≤ sv)) ∧
    MemoryFacade.inheritLoop [] = ([], []) ∧
    (∀ a : String × TurnData,
      MemoryFacade.inheritLoop [a] =
        (a.2.claims_active.filter MemoryFacade.inheritQualifies,
         a.2.evidences_active.filter (fun e =>
           (a.2.claims_active.filter MemoryFacade.inheritQualifies).any
             (fun c => c.support_ids.contains e.id)))) ∧
    (∀ a b : String × TurnData,
      MemoryFacade.inheritLoop [a, b] =
        (a.2.claims_active.filter MemoryFacade.inheritQualifies ++
           b.2.claims_active.filter MemoryFacade.inheritQualifies,
         a.2.evidences_active.filter (fun e =>
           (a.2.claims_active.filter MemoryFacade.inheritQualifies).any
             (fun c => c.support_ids.contains e.id)) ++
           b.2.evidences_active.filter (fun e =>
             (a.2.claims_active.filter MemoryFacade.inheritQualifies ++
               b.2.claims_active.filter MemoryFacade.inheritQualifies).any
               (fun c => c.support_ids.contains e.id)))) ∧
    (∀ (st : MemoryFacade) (sid tid q : String) (ts : List (String × TurnData)),
      (aget st.turn_data sid).getD [] = ts →
      (∀ p ∈ ts, p.1 ≠ tid) →
      (st.begin_turn sid tid q).getTurn sid tid =
        some { user_query := q
               claims_active :=
                 (MemoryFacade.inheritLoop (ts.drop (ts.length - 2))).1
               evidences_active :=
                 (MemoryFacade.inheritLoop (ts.drop (ts.length - 2))).2 }) := by
  refine ⟨?_, rfl, fun a => rfl, fun a b => rfl, ?_⟩
  · intro c
    unfold MemoryFacade.inheritQualifies
    cases hs : c.salience with
    | none =>
      simp only [pyOrQ, Bool.and_eq_true, decide_eq_true_eq]
      constructor
      · intro ⟨_, habs⟩
        exact absurd habs (by norm_num)
      · intro ⟨_, sv, hsv, _⟩
        cases hsv
    | some v =>
      by_cases hv : v = 0
      · subst hv
        simp only [pyOrQ, if_pos rfl, Bool.and_eq_true, decide_eq_true_eq]
        constructor
        · intro ⟨_, habs⟩
          exact absurd habs (by norm_num)
        · intro ⟨_, sv, hsv, hle⟩
          cases hsv
          exact absurd hle (by norm_num)
      · simp only [pyOrQ, if_neg hv, Bool.and_eq_true, decide_eq_true_eq]
        constructor
        · intro ⟨hc, hv6⟩
          exact ⟨hc, v, rfl, hv6⟩
        · intro ⟨hc, sv, hsv, hle⟩
          cases hsv
          exact ⟨hc, hle⟩
  · intro st sid tid q ts hts hne
    unfold MemoryFacade.begin_turn
    have h1 : aget (st.setTurn sid tid { user_query := q }).turn_data sid
        = some (ts ++ [(tid, { user_query := q })]) := by
      unfold MemoryFacade.setTurn
      rw [aget_aset_self, hts, aset_of_forall_ne ts tid _ hne]
    have h3 : (ts ++ [(tid, ({ user_query := q } : TurnData))]).filter
        (fun p => decide (p.1 ≠ tid)) = ts := by
      rw [List.filter_append]
      have hts' : ts.filter (fun p => decide (p.1 ≠ tid)) = ts :=
        List.filter_eq_self.mpr (by intro p hp; simpa using hne p hp)
      rw [hts']
      simp
    dsimp only
    rw [h1]
    simp only [Option.getD_some, h3]
    by_cases he : ts.isEmpty
    · have hnil : ts = [] := List.isEmpty_iff.mp he
      subst hnil
      rw [if_pos he]
      exact getTurn_setTurn_self st sid tid _
    · rw [if_neg (by simpa using he)]
      exact getTurn_setTurn_self _ sid tid _

/-- Witness for the amended C4: applying the characterization to the
concrete one-prior-turn ledger. -/
theorem begin_turn_inheritance_witness :
    ((aget inhLedger.turn_data "s").getD [] = [("t1", inhPrevTd)] ∧
      (∀ p ∈ [("t1", inhPrevTd)], p.1 ≠ "t2")) ∧
    (inhLedger.begin_turn "s" "t2" "q2").getTurn "s" "t2" =
      some { user_query := "q2"
             claims_active :=
               (MemoryFacade.inheritLoop
                 ([("t1", inhPrevTd)].drop ([("t1", inhPrevTd)].length - 2))).1
             evidences_active :=
               (MemoryFacade.inheritLoop
                 ([("t1", inhPrevTd)].drop ([("t1", inhPrevTd)].length - 2))).2 } := by
  refine ⟨⟨rfl, by decide⟩, ?_⟩
  exact begin_turn_inheritance_characterization.2.2.2.2 inhLedger "s" "t2" "q2"
    [("t1", inhPrevTd)] rfl (by decide)

/-! ## C9 — the original query reaches the output generator -/

theorem getTurn_eq_of_turn_data_eq (st st' : MemoryFacade)
    (h : st.turn_data = st'.turn_data) (sid tid : String) :
    st.getTurn sid tid = st'.getTurn sid tid := by
  unfold MemoryFacade.getTurn
  rw [h]

theorem getTurn_add_evidences_ne (st : MemoryFacade) (sid tid pid : String)
    (evs : List EvidenceItem) (sid' tid' : String)
    (h : ¬ (sid' = sid ∧ tid' = tid)) :
    (st.add_evidences sid tid pid evs).1.getTurn sid' tid' =
      st.getTurn sid' tid' := by
  unfold MemoryFacade.add_evidences
  cases hg : st.getTurn sid tid with
  | none => rfl
  | some td =>
    dsimp only
    split
    · split
      · split
        · rw [getTurn_appendPatch, getTurn_setTurn_ne _ _ _ _ _ _ h]
          rfl
        · rw [getTurn_setTurn_ne _ _ _ _ _ _ h]
          rfl
      · rw [getTurn_setTurn_ne _ _ _ _ _ _ h]
        rfl
    · rw [getTurn_setTurn_ne _ _ _ _ _ _ h]
      rfl

theorem getTurn_merge_claims_ne (st : MemoryFacade) (sid tid pid : String)
    (cs : List Claim) (sid' tid' : String)
    (h : ¬ (sid' = sid ∧ tid' = tid)) :
    (st.merge_claims sid tid pid cs).getTurn sid' tid' =
      st.getTurn sid' tid' := by
  unfold MemoryFacade.merge_claims
  cases hg : st.getTurn sid tid with
  | none => rfl
  | some td =>
    dsimp only
    split
    · split
      · split
        · rw [getTurn_appendPatch, getTurn_setTurn_ne _ _ _ _ _ _ h]
        · rw [getTurn_setTurn_ne _ _ _ _ _ _ h]
      · rw [getTurn_setTurn_ne _ _ _ _ _ _ h]
    · rw [getTurn_setTurn_ne _ _ _ _ _ _ h]

theorem apply_claim_updates_getTurn_self (st : MemoryFacade)
    (sid tid : String) (us : List MemoryFacade.ClaimUpdate) (td : TurnData)
    (hg : st.getTurn sid tid = some td) :
    ∃ cl, (st.apply_claim_updates sid tid us).getTurn sid tid =
      some { td with claims_active := cl } := by
  unfold MemoryFacade.apply_claim_updates
  rw [hg]
  exact ⟨_, getTurn_setTurn_self _ _ _ _⟩

theorem getTurn_apply_claim_updates_ne (st : MemoryFacade)
    (sid tid : String) (us : List MemoryFacade.ClaimUpdate)
    (sid' tid' : String) (h : ¬ (sid' = sid ∧ tid' = tid)) :
    (st.apply_claim_updates sid tid us).getTurn sid' tid' =
      st.getTurn sid' tid' := by
  unfold MemoryFacade.apply_claim_updates
  cases hg : st.getTurn sid tid with
  | none => rfl
  | some td => exact getTurn_setTurn_ne _ _ _ _ _ _ h

theorem set_evaluate_getTurn_self (st : MemoryFacade)
    (sid tid pid : String) (snap : EvaluateSnapshot) :
    (st.set_evaluate sid tid pid snap).getTurn sid tid =
      some { (st.getTurn sid tid).getD {} with last_evaluate := some snap } := by
  unfold MemoryFacade.set_evaluate
  dsimp only
  split
  · split
    · split
      · split
        · rw [getTurn_appendPatch, getTurn_setTurn_self]
        · exact (getTurn_eq_of_turn_data_eq _ _
            (appendPatch_turn_data _ _ _ _ _ _) sid tid).trans
            (getTurn_setTurn_self _ sid tid _)
      · rw [getTurn_setTurn_self]
    · rw [getTurn_setTurn_self]
  · rw [getTurn_setTurn_self]

theorem getTurn_set_evaluate_ne (st : MemoryFacade) (sid tid pid : String)
    (snap : EvaluateSnapshot) (sid' tid' : String)
    (h : ¬ (sid' = sid ∧ tid' = tid)) :
    (st.set_evaluate sid tid pid snap).getTurn sid' tid' =
      st.getTurn sid' tid' := by
  unfold MemoryFacade.set_evaluate
  dsimp only
  split
  · split
    · split
      · split
        · rw [getTurn_appendPatch, getTurn_setTurn_ne _ _ _ _ _ _ h]
        · exact (getTurn_eq_of_turn_data_eq _ _
            (appendPatch_turn_data _ _ _ _ _ _) sid' tid').trans
            (getTurn_setTurn_ne _ _ _ _ _ _ h)
      · rw [getTurn_setTurn_ne _ _ _ _ _ _ h]
    · rw [getTurn_setTurn_ne _ _ _ _ _ _ h]
  · rw [getTurn_setTurn_ne _ _ _ _ _ _ h]

theorem getTurn_rollup (st : MemoryFacade) (sid tid sid' tid' : String) :
    (st.rollup_to_session_archive sid tid).getTurn sid' tid' =
      st.getTurn sid' tid' := by
  unfold MemoryFacade.rollup_to_session_archive
  dsimp only
  split <;> rfl

theorem set_plan_list_getTurn_self (st : MemoryFacade) (sid tid : String)
    (steps : List PlanStep) :
    ∃ pl cur, (st.set_plan_list sid tid steps).getTurn sid tid =
      some { (st.getTurn sid tid).getD {} with
              plan_list := pl, current_step_id := cur } := by
  unfold MemoryFacade.set_plan_list
  cases steps with
  | nil =>
    refine ⟨[], ((st.getTurn sid tid).getD {}).current_step_id, ?_⟩
    exact getTurn_setTurn_self _ _ _ _
  | cons s rest =>
    refine ⟨s :: rest, some s.step_id, ?_⟩
    exact getTurn_setTurn_self _ _ _ _

theorem getTurn_set_plan_list_ne (st : MemoryFacade) (sid tid : String)
    (steps : List PlanStep) (sid' tid' : String)
    (h : ¬ (sid' = sid ∧ tid' = tid)) :
    (st.set_plan_list sid tid steps).getTurn sid' tid' =
      st.getTurn sid' tid' := by
  unfold MemoryFacade.set_plan_list
  cases steps with
  | nil => exact getTurn_setTurn_ne _ _ _ _ _ _ h
  | cons s rest => exact getTurn_setTurn_ne _ _ _ _ _ _ h

theorem set_current_step_getTurn_self (st : MemoryFacade)
    (sid tid step_id : String) :
    (st.set_current_step sid tid step_id).getTurn sid tid =
      some { (st.getTurn sid tid).getD {} with
              current_step_id := some step_id } := by
  unfold MemoryFacade.set_current_step
  exact getTurn_setTurn_self _ _ _ _

theorem getTurn_set_current_step_ne (st : MemoryFacade)
    (sid tid step_id sid' tid' : String)
    (h : ¬ (sid' = sid ∧ tid' = tid)) :
    (st.set_current_step sid tid step_id).getTurn sid' tid' =
      st.getTurn sid' tid' := by
  unfold MemoryFacade.set_current_step
  exact getTurn_setTurn_ne _ _ _ _ _ _ h

theorem set_step_status_getTurn_self (st : MemoryFacade)
    (sid tid step_id status : String) (td : TurnData)
    (hg : st.getTurn sid tid = some td) :
    (st.set_step_status sid tid step_id status).getTurn sid tid =
      some { td with plan_list :=
              MemoryFacade.setStatusFirst step_id status td.plan_list } := by
  unfold MemoryFacade.set_step_status
  rw [hg]
  exact getTurn_setTurn_self _ _ _ _

theorem getTurn_set_step_status_ne (st : MemoryFacade)
    (sid tid step_id status sid' tid' : String)
    (h : ¬ (sid' = sid ∧ tid' = tid)) :
    (st.set_step_status sid tid step_id status).getTurn sid' tid' =
      st.getTurn sid' tid' := by
  unfold MemoryFacade.set_step_status
  cases hg : st.getTurn sid tid with
  | none => rfl
  | some td => exact getTurn_setTurn_ne _ _ _ _ _ _ h

/-- Every ledger operation except `begin_turn` preserves the stored user
query of an existing turn. -/
theorem applyOp_preserves_user_query (op : Op) (hop : op.isBeginTurn = false)
    (st : MemoryFacade) (sid tid : String) (td : TurnData)
    (hg : st.getTurn sid tid = some td) :
    ∃ td', (applyOp st op).getTurn sid tid = some td' ∧
      td'.user_query = td.user_query := by
  cases op with
  | beginTurn sid0 tid0 q => simp [Op.isBeginTurn] at hop
  | beginPlan sid0 tid0 pid be bc => exact ⟨td, hg, rfl⟩
  | addEvidences sid0 tid0 pid evs =>
    by_cases h : sid = sid0 ∧ tid = tid0
    · obtain ⟨rfl, rfl⟩ := h
      exact ⟨_, add_evidences_getTurn_self st sid tid pid evs td hg, rfl⟩
    · rw [show applyOp st (.addEvidences sid0 tid0 pid evs) =
          (st.add_evidences sid0 tid0 pid evs).1 from rfl,
        getTurn_add_evidences_ne st sid0 tid0 pid evs sid tid h]
      exact ⟨td, hg, rfl⟩
  | mergeClaims sid0 tid0 pid cs =>
    by_cases h : sid = sid0 ∧ tid = tid0
    · obtain ⟨rfl, rfl⟩ := h
      exact ⟨_, merge_claims_getTurn_self st sid tid pid cs td hg, rfl⟩
    · rw [show applyOp st (.mergeClaims sid0 tid0 pid cs) =
          st.merge_claims sid0 tid0 pid cs from rfl,
        getTurn_merge_claims_ne st sid0 tid0 pid cs sid tid h]
      exact ⟨td, hg, rfl⟩
  | applyClaimUpdates sid0 tid0 us =>
    by_cases h : sid = sid0 ∧ tid = tid0
    · obtain ⟨rfl, rfl⟩ := h
      obtain ⟨cl, hcl⟩ := apply_claim_updates_getTurn_self st sid tid us td hg
      exact ⟨_, hcl, rfl⟩
    · rw [show applyOp st (.applyClaimUpdates sid0 tid0 us) =
          st.apply_claim_updates sid0 tid0 us from rfl,
        getTurn_apply_claim_updates_ne st sid0 tid0 us sid tid h]
      exact ⟨td, hg, rfl⟩
  | setEvaluate sid0 tid0 pid snap =>
    by_cases h : sid = sid0 ∧ tid = tid0
    · obtain ⟨rfl, rfl⟩ := h
      refine ⟨_, set_evaluate_getTurn_self st sid tid pid snap, ?_⟩
      rw [hg]
      rfl
    · rw [show applyOp st (.setEvaluate sid0 tid0 pid snap) =
          st.set_evaluate sid0 tid0 pid snap from rfl,
        getTurn_set_evaluate_ne st sid0 tid0 pid snap sid tid h]
      exact ⟨td, hg, rfl⟩
  | rollup sid0 tid0 =>
    rw [show applyOp st (.rollup sid0 tid0) =
        st.rollup_to_session_archive sid0 tid0 from rfl,
      getTurn_rollup st sid0 tid0 sid tid]
    exact ⟨td, hg, rfl⟩
  | setPlanList sid0 tid0 steps =>
    by_cases h : sid = sid0 ∧ tid = tid0
    · obtain ⟨rfl, rfl⟩ := h
      obtain ⟨pl, cur, hpl⟩ := set_plan_list_getTurn_self st sid tid steps
      refine ⟨_, hpl, ?_⟩
      rw [hg]
      rfl
    · rw [show applyOp st (.setPlanList sid0 tid0 steps) =
          st.set_plan_list sid0 tid0 steps from rfl,
        getTurn_set_plan_list_ne st sid0 tid0 steps sid tid h]
      exact ⟨td, hg, rfl⟩
  | setCurrentStep sid0 tid0 s0 =>
    by_cases h : sid = sid0 ∧ tid = tid0
    · obtain ⟨rfl, rfl⟩ := h
      refine ⟨_, set_current_step_getTurn_self st sid tid s0, ?_⟩
      rw [hg]
      rfl
    · rw [show applyOp st (.setCurrentStep sid0 tid0 s0) =
          st.set_current_step sid0 tid0 s0 from rfl,
        getTurn_set_current_step_ne st sid0 tid0 s0 sid tid h]
      exact ⟨td, hg, rfl⟩
  | setStepStatus sid0 tid0 s0 stat =>
    by_cases h : sid = sid0 ∧ tid = tid0
    · obtain ⟨rfl, rfl⟩ := h
      exact ⟨_, set_step_status_getTurn_self st sid tid s0 stat td hg, rfl⟩
    · rw [show applyOp st (.setStepStatus sid0 tid0 s0 stat) =
          st.set_step_status sid0 tid0 s0 stat from rfl,
        getTurn_set_step_status_ne st sid0 tid0 s0 stat sid tid h]
      exact ⟨td, hg, rfl⟩
  | recordAction sid0 tid0 log => exact ⟨td, hg, rfl⟩
  | setSessionConfig sid0 cfg => exact ⟨td, hg, rfl⟩

theorem begin_turn_user_query (st : MemoryFacade) (sid tid q : String) :
    ∃ td, (st.begin_turn sid tid q).getTurn sid tid = some td ∧
      td.user_query = q := by
  unfold MemoryFacade.begin_turn
  dsimp only
  split
  · exact ⟨_, getTurn_setTurn_self _ _ _ _, rfl⟩
  · exact ⟨_, getTurn_setTurn_self _ _ _ _, rfl⟩

theorem applyOps_preserve_user_query (ops : List Op) :
    ∀ (st : MemoryFacade) (sid tid : String) (td : TurnData),
      (∀ op ∈ ops, op.isBeginTurn = false) →
      st.getTurn sid tid = some td →
      ∃ td', (applyOps st ops).getTurn sid tid = some td' ∧
        td'.user_query = td.user_query := by
  induction ops with
  | nil =>
    intro st sid tid td _ hg
    exact ⟨td, hg, rfl⟩
  | cons op rest ih =>
    intro st sid tid td hops hg
    obtain ⟨td1, hg1, hq1⟩ := applyOp_preserves_user_query op
      (hops op (List.mem_cons_self _ _)) st sid tid td hg
    obtain ⟨td2, hg2, hq2⟩ := ih (applyOp st op) sid tid td1
      (fun o ho => hops o (List.mem_cons_of_mem _ ho)) hg1
    exact ⟨td2, hg2, hq2.trans hq1⟩

/-- **C9.**  The prior-turn context is prefixed only to the working query
used for planning (the planner query always ends in the original question),
while the query handed to the output generator is read back from the turn
scope the ledger stored at `begin_turn` — and no in-turn ledger operation
(everything except a new `begin_turn`) ever changes it — so final answer
generation receives the original user query unmodified, for every session,
query, context string and sequence of in-turn operations. -/
theorem output_receives_original_query :
    (∀ (include_context has_prev : Bool) (ctx q : String),
      ∃ p, Agent.planner_query include_context has_prev ctx q = p ++ q) ∧
    (∀ (st : MemoryFacade) (sid tid q : String) (ops : List Op)
        (working_query : String),
      (∀ op ∈ ops, op.isBeginTurn = false) →
      Agent.user_query_for_output (applyOps (st.begin_turn sid tid q) ops)
        sid tid working_query = q) := by
  constructor
  · intro ic hp ctx q
    unfold Agent.planner_query
    by_cases h1 : ic = true
    · by_cases h2 : hp = true
      · by_cases h3 : ctx ≠ ""
        · refine ⟨ctx ++ "\n\n当前问题: ", ?_⟩
          simp [h1, h2, h3, String.append_assoc]
        · exact ⟨"", by simp [h1, h2, h3]⟩
      · refine ⟨"", ?_⟩
        simp only [h1, if_true]
        rw [if_neg h2]
        simp
    · refine ⟨"", ?_⟩
      rw [if_neg h1]
      simp
  · intro st sid tid q ops working_query hops
    obtain ⟨td0, hg0, hq0⟩ := begin_turn_user_query st sid tid q
    obtain ⟨td1, hg1, hq1⟩ := applyOps_preserve_user_query ops _ sid tid td0
      hops hg0
    unfold Agent.user_query_for_output
    rw [hg1]
    dsimp only
    rw [hq1, hq0]

/-- A short in-turn operation sequence for the C9 witness. -/
def c9Step : PlanStep :=
  { step_id := "s1", goal := "g", action_seed := [], done_criteria := "d"
    priority := 1 }

/-- See `c9Step`. -/
def c9Ops : List Op :=
  [ .setPlanList "s" "t" [c9Step]
  , .beginPlan "s" "t" "p" [] []
  , .addEvidences "s" "t" "p" [ev1]
  , .setStepStatus "s" "t" "s1" "FINISHED"
  , .rollup "s" "t" ]

/-- Witness for C9: after a begun turn and a concrete in-turn operation
sequence, the output generator still receives the original query. -/
theorem output_receives_original_query_witness :
    (∀ op ∈ c9Ops, op.isBeginTurn = false) ∧
    Agent.user_query_for_output
      (applyOps (MemoryFacade.begin_turn {} "s" "t" "original question") c9Ops)
      "s" "t" "context-prefixed working query" = "original question" :=
  ⟨of_decide_eq_true (by with_unfolding_all rfl),
    output_receives_original_query.2 {} "s" "t" "original question"
      c9Ops "context-prefixed working query"
      (of_decide_eq_true (by with_unfolding_all rfl))⟩

/-! ## C3 — no zero-confidence claim survives -/

/-- The claim at confidence 0 that `merge_claims` happily inserts. -/
def zeroClaim : Claim :=
  { id := "z", text := "zero-confidence claim", support_ids := []
    aspects := [], confidence := 0 }

/-- **C3 counterexample.**  `merge_claims` inserts unseen claims as-is, so a
zero-confidence incoming claim enters — and stays in — the turn's active
set, refuting the invariant "no turn's active claim set contains a claim
whose confidence equals 0" over arbitrary operation sequences. -/
theorem merge_claims_zero_confidence_counterexample :
    (applyOps {} [Op.beginTurn "s" "t" "q",
      Op.mergeClaims "s" "t" "p" [zeroClaim]]).get_claims "s" "t" =
        [zeroClaim] ∧
    zeroClaim.confidence = 0 :=
  ⟨of_decide_eq_true (by with_unfolding_all rfl), rfl⟩

theorem aget_mem {κ α : Type} [DecidableEq κ] {l : List (κ × α)} {k : κ}
    {v : α} (h : aget l k = some v) : (k, v) ∈ l := by
  induction l with
  | nil => cases h
  | cons hd tl ih =>
    obtain ⟨k0, v0⟩ := hd
    by_cases hk : k0 = k
    · subst hk
      rw [aget, if_pos rfl] at h
      cases h
      exact List.mem_cons_self _ _
    · rw [aget, if_neg hk] at h
      exact List.mem_cons_of_mem _ (ih h)

theorem getTurn_begin_turn_ne (st : MemoryFacade) (sid tid q sid' tid' : String)
    (h : ¬ (sid' = sid ∧ tid' = tid)) :
    (st.begin_turn sid tid q).getTurn sid' tid' = st.getTurn sid' tid' := by
  unfold MemoryFacade.begin_turn
  dsimp only
  split
  · exact getTurn_setTurn_ne _ _ _ _ _ _ h
  · rw [getTurn_setTurn_ne _ _ _ _ _ _ h, getTurn_setTurn_ne _ _ _ _ _ _ h]

/-- Every claim collected by the inheritance loop passed the qualification
test. -/
theorem inheritLoop_claims_qualify (turns : List (String × TurnData)) :
    ∀ c ∈ (MemoryFacade.inheritLoop turns).1,
      MemoryFacade.inheritQualifies c = true := by
  have key : ∀ (ts : List (String × TurnData))
      (acc : List Claim × List EvidenceItem),
      (∀ c ∈ acc.1, MemoryFacade.inheritQualifies c = true) →
      ∀ c ∈ (ts.foldl
        (fun acc pt =>
          let cs := acc.1 ++ pt.2.claims_active.filter MemoryFacade.inheritQualifies
          let es := acc.2 ++
            pt.2.evidences_active.filter
              (fun e => cs.any (fun c => c.support_ids.contains e.id))
          (cs, es)) acc).1,
        MemoryFacade.inheritQualifies c = true := by
    intro ts
    induction ts with
    | nil => intro acc hacc c hc; exact hacc c hc
    | cons t rest ih =>
      intro acc hacc c hc
      refine ih _ ?_ c hc
      intro c' hc'
      rcases List.mem_append.mp hc' with h' | h'
      · exact hacc c' h'
      · exact List.of_mem_filter h'
  intro c hc
  exact key turns ([], []) (by simp) c hc

/-- The merge loop never produces a zero-confidence claim from nonzero
inputs. -/
theorem merge_claims_loop_nonzero (cs : List Claim) :
    ∀ (snap : List String) (active : List Claim),
      (∀ c ∈ active, c.confidence ≠ 0) →
      (∀ c ∈ cs, c.confidence ≠ 0) →
      ∀ c ∈ MemoryFacade.merge_claims_loop snap active cs,
        c.confidence ≠ 0 := by
  induction cs with
  | nil =>
    intro snap active hactive _ c hc
    exact hactive c hc
  | cons n rest ih =>
    intro snap active hactive hcs c hc
    unfold MemoryFacade.merge_claims_loop at hc
    by_cases hsn : snap.contains n.id
    · rw [if_pos hsn] at hc
      refine ih snap _ ?_ (fun c' hc' => hcs c' (List.mem_cons_of_mem _ hc')) c hc
      intro c' hc'
      rcases List.mem_map.mp hc' with ⟨c0, hc0, hc0e⟩
      by_cases h0 : c0.id = n.id
      · rw [← hc0e, if_pos h0]
        have hconf : (MemoryFacade.mergeExisting c0 n).confidence =
            max c0.confidence n.confidence := by rw [mergeExisting_def]
        rw [hconf]
        rcases max_choice c0.confidence n.confidence with hm | hm
        · rw [hm]; exact hactive c0 hc0
        · rw [hm]; exact hcs n (List.mem_cons_self _ _)
      · rw [← hc0e, if_neg h0]
        exact hactive c0 hc0
    · rw [if_neg hsn] at hc
      refine ih snap _ ?_ (fun c' hc' => hcs c' (List.mem_cons_of_mem _ hc')) c hc
      intro c' hc'
      rcases List.mem_append.mp hc' with h' | h'
      · exact hactive c' h'
      · have : c' = n := by simpa using h'
        rw [this]
        exact hcs n (List.mem_cons_self _ _)

theorem begin_turn_claims_qualify (st : MemoryFacade) (sid tid q : String) :
    ∀ c ∈ (st.begin_turn sid tid q).get_claims sid tid,
      MemoryFacade.inheritQualifies c = true := by
  intro c hc
  unfold MemoryFacade.get_claims at hc
  unfold MemoryFacade.begin_turn at hc
  dsimp only at hc
  split at hc
  · rw [getTurn_setTurn_self] at hc
    simp at hc
  · rw [getTurn_setTurn_self] at hc
    exact inheritLoop_claims_qualify _ c hc

theorem inheritQualifies_nonzero (c : Claim)
    (h : MemoryFacade.inheritQualifies c = true) : c.confidence ≠ 0 := by
  unfold MemoryFacade.inheritQualifies at h
  rw [Bool.and_eq_true, decide_eq_true_eq, decide_eq_true_eq] at h
  intro h0
  rw [h0] at h
  exact absurd h.1 (by norm_num)

theorem apply_claim_updates_getTurn_self_eq (st : MemoryFacade)
    (sid tid : String) (us : List MemoryFacade.ClaimUpdate) (td : TurnData)
    (hg : st.getTurn sid tid = some td) :
    (st.apply_claim_updates sid tid us).getTurn sid tid =
      some { td with claims_active :=
              ((MemoryFacade.rebuildClaims
                (us.foldl MemoryFacade.applyUpdateStep
                  (td.claims_active.foldl (fun m c => aset m c.id c) []))
                td.claims_active).filter
                  (fun c => decide (0 < c.confidence))) } := by
  unfold MemoryFacade.apply_claim_updates
  rw [hg]
  exact getTurn_setTurn_self _ _ _ _

theorem add_evidences_none (st : MemoryFacade) (sid tid pid : String)
    (evs : List EvidenceItem) (hg : st.getTurn sid tid = none) :
    st.add_evidences sid tid pid evs = (st, []) := by
  unfold MemoryFacade.add_evidences
  rw [hg]

theorem merge_claims_none (st : MemoryFacade) (sid tid pid : String)
    (cs : List Claim) (hg : st.getTurn sid tid = none) :
    st.merge_claims sid tid pid cs = st := by
  unfold MemoryFacade.merge_claims
  rw [hg]

theorem apply_claim_updates_none (st : MemoryFacade) (sid tid : String)
    (us : List MemoryFacade.ClaimUpdate) (hg : st.getTurn sid tid = none) :
    st.apply_claim_updates sid tid us = st := by
  unfold MemoryFacade.apply_claim_updates
  rw [hg]

theorem set_step_status_none (st : MemoryFacade) (sid tid s0 stat : String)
    (hg : st.getTurn sid tid = none) :
    st.set_step_status sid tid s0 stat = st := by
  unfold MemoryFacade.set_step_status
  rw [hg]

/-- Every ledger operation preserves "no active claim has confidence 0",
provided `merge_claims` payloads carry no zero-confidence claim. -/
theorem applyOp_preserves_nonzero (op : Op) (hop : op.mergePayloadNonzero)
    (st : MemoryFacade)
    (hst : ∀ sid tid c, c ∈ st.get_claims sid tid → c.confidence ≠ 0) :
    ∀ sid tid c, c ∈ (applyOp st op).get_claims sid tid → c.confidence ≠ 0 := by
  intro sid tid c hc
  cases op with
  | beginTurn sid0 tid0 q =>
    by_cases h : sid = sid0 ∧ tid = tid0
    · obtain ⟨rfl, rfl⟩ := h
      exact inheritQualifies_nonzero c (begin_turn_claims_qualify st sid tid q c hc)
    · unfold MemoryFacade.get_claims at hc
      rw [show (applyOp st (.beginTurn sid0 tid0 q)).getTurn sid tid =
          st.getTurn sid tid from getTurn_begin_turn_ne st sid0 tid0 q sid tid h] at hc
      exact hst sid tid c hc
  | beginPlan sid0 tid0 pid be bc => exact hst sid tid c hc
  | addEvidences sid0 tid0 pid evs =>
    by_cases h : sid = sid0 ∧ tid = tid0
    · obtain ⟨rfl, rfl⟩ := h
      cases hg : st.getTurn sid tid with
      | none =>
        rw [show applyOp st (.addEvidences sid tid pid evs) =
            (st.add_evidences sid tid pid evs).1 from rfl,
          add_evidences_none st sid tid pid evs hg] at hc
        exact hst sid tid c hc
      | some td =>
        unfold MemoryFacade.get_claims at hc
        rw [show (applyOp st (.addEvidences sid tid pid evs)).getTurn sid tid =
            _ from add_evidences_getTurn_self st sid tid pid evs td hg] at hc
        refine hst sid tid c ?_
        unfold MemoryFacade.get_claims
        rw [hg]
        exact hc
    · unfold MemoryFacade.get_claims at hc
      rw [show (applyOp st (.addEvidences sid0 tid0 pid evs)).getTurn sid tid =
          st.getTurn sid tid from
          getTurn_add_evidences_ne st sid0 tid0 pid evs sid tid h] at hc
      exact hst sid tid c hc
  | mergeClaims sid0 tid0 pid cs =>
    by_cases h : sid = sid0 ∧ tid = tid0
    · obtain ⟨rfl, rfl⟩ := h
      cases hg : st.getTurn sid tid with
      | none =>
        rw [show applyOp st (.mergeClaims sid tid pid cs) =
            st.merge_claims sid tid pid cs from rfl,
          merge_claims_none st sid tid pid cs hg] at hc
        exact hst sid tid c hc
      | some td =>
        unfold MemoryFacade.get_claims at hc
        rw [show (applyOp st (.mergeClaims sid tid pid cs)).getTurn sid tid =
            _ from merge_claims_getTurn_self st sid tid pid cs td hg] at hc
        refine merge_claims_loop_nonzero cs _ td.claims_active ?_ hop c hc
        intro c' hc'
        refine hst sid tid c' ?_
        unfold MemoryFacade.get_claims
        rw [hg]
        exact hc'
    · unfold MemoryFacade.get_claims at hc
      rw [show (applyOp st (.mergeClaims sid0 tid0 pid cs)).getTurn sid tid =
          st.getTurn sid tid from
          getTurn_merge_claims_ne st sid0 tid0 pid cs sid tid h] at hc
      exact hst sid tid c hc
  | applyClaimUpdates sid0 tid0 us =>
    by_cases h : sid = sid0 ∧ tid = tid0
    · obtain ⟨rfl, rfl⟩ := h
      cases hg : st.getTurn sid tid with
      | none =>
        rw [show applyOp st (.applyClaimUpdates sid tid us) =
            st.apply_claim_updates sid tid us from rfl,
          apply_claim_updates_none st sid tid us hg] at hc
        exact hst sid tid c hc
      | some td =>
        unfold MemoryFacade.get_claims at hc
        rw [show (applyOp st (.applyClaimUpdates sid tid us)).getTurn sid tid =
            _ from apply_claim_updates_getTurn_self_eq st sid tid us td hg] at hc
        have := List.of_mem_filter hc
        have h0 : 0 < c.confidence := by simpa using this
        exact ne_of_gt h0
    · unfold MemoryFacade.get_claims at hc
      rw [show (applyOp st (.applyClaimUpdates sid0 tid0 us)).getTurn sid tid =
          st.getTurn sid tid from
          getTurn_apply_claim_updates_ne st sid0 tid0 us sid tid h] at hc
      exact hst sid tid c hc
  | setEvaluate sid0 tid0 pid snap =>
    by_cases h : sid = sid0 ∧ tid = tid0
    · obtain ⟨rfl, rfl⟩ := h
      unfold MemoryFacade.get_claims at hc
      rw [show (applyOp st (.setEvaluate sid tid pid snap)).getTurn sid tid =
          _ from set_evaluate_getTurn_self st sid tid pid snap] at hc
      exact hst sid tid c hc
    · unfold MemoryFacade.get_claims at hc
      rw [show (applyOp st (.setEvaluate sid0 tid0 pid snap)).getTurn sid tid =
          st.getTurn sid tid from
          getTurn_set_evaluate_ne st sid0 tid0 pid snap sid tid h] at hc
      exact hst sid tid c hc
  | rollup sid0 tid0 =>
    unfold MemoryFacade.get_claims at hc
    rw [show (applyOp st (.rollup sid0 tid0)).getTurn sid tid =
        st.getTurn sid tid from getTurn_rollup st sid0 tid0 sid tid] at hc
    exact hst sid tid c hc
  | setPlanList sid0 tid0 steps =>
    by_cases h : sid = sid0 ∧ tid = tid0
    · obtain ⟨rfl, rfl⟩ := h
      obtain ⟨pl, cur, hpl⟩ := set_plan_list_getTurn_self st sid tid steps
      unfold MemoryFacade.get_claims at hc
      rw [show (applyOp st (.setPlanList sid tid steps)).getTurn sid tid =
          _ from hpl] at hc
      exact hst sid tid c hc
    · unfold MemoryFacade.get_claims at hc
      rw [show (applyOp st (.setPlanList sid0 tid0 steps)).getTurn sid tid =
          st.getTurn sid tid from
          getTurn_set_plan_list_ne st sid0 tid0 steps sid tid h] at hc
      exact hst sid tid c hc
  | setCurrentStep sid0 tid0 s0 =>
    by_cases h : sid = sid0 ∧ tid = tid0
    · obtain ⟨rfl, rfl⟩ := h
      unfold MemoryFacade.get_claims at hc
      rw [show (applyOp st (.setCurrentStep sid tid s0)).getTurn sid tid =
          _ from set_current_step_getTurn_self st sid tid s0] at hc
      exact hst sid tid c hc
    · unfold MemoryFacade.get_claims at hc
      rw [show (applyOp st (.setCurrentStep sid0 tid0 s0)).getTurn sid tid =
          st.getTurn sid tid from
          getTurn_set_current_step_ne st sid0 tid0 s0 sid tid h] at hc
      exact hst sid tid c hc
  | setStepStatus sid0 tid0 s0 stat =>
    by_cases h : sid = sid0 ∧ tid = tid0
    · obtain ⟨rfl, rfl⟩ := h
      cases hg : st.getTurn sid tid with
      | none =>
        rw [show applyOp st (.setStepStatus sid tid s0 stat) =
            st.set_step_status sid tid s0 stat from rfl,
          set_step_status_none st sid tid s0 stat hg] at hc
        exact hst sid tid c hc
      | some td =>
        unfold MemoryFacade.get_claims at hc
        rw [show (applyOp st (.setStepStatus sid tid s0 stat)).getTurn sid tid =
            _ from set_step_status_getTurn_self st sid tid s0 stat td hg] at hc
        refine hst sid tid c ?_
        unfold MemoryFacade.get_claims
        rw [hg]
        exact hc
    · unfold MemoryFacade.get_claims at hc
      rw [show (applyOp st (.setStepStatus sid0 tid0 s0 stat)).getTurn sid tid =
          st.getTurn sid tid from
          getTurn_set_step_status_ne st sid0 tid0 s0 stat sid tid h] at hc
      exact hst sid tid c hc
  | recordAction sid0 tid0 log => exact hst sid tid c hc
  | setSessionConfig sid0 cfg => exact hst sid tid c hc

theorem applyOneUpdate_id (c : Claim) (u : MemoryFacade.ClaimUpdate) :
    (MemoryFacade.applyOneUpdate c u).id = c.id := by
  unfold MemoryFacade.applyOneUpdate
  split
  · rfl
  · split
    · rfl
    · split <;> rfl

theorem applyOneUpdate_retracted_conf (c : Claim)
    (u : MemoryFacade.ClaimUpdate) (h : u.action = "retracted") :
    (MemoryFacade.applyOneUpdate c u).confidence = 0 := by
  unfold MemoryFacade.applyOneUpdate
  rw [h]
  simp

theorem claimsMap_id_inv (active : List Claim) :
    ∀ p ∈ active.foldl (fun m c => aset m c.id c) [], p.2.id = p.1 := by
  have key : ∀ (l : List Claim) (m : List (String × Claim)),
      (∀ p ∈ m, p.2.id = p.1) →
      ∀ p ∈ l.foldl (fun m c => aset m c.id c) m, p.2.id = p.1 := by
    intro l
    induction l with
    | nil => intro m hm p hp; exact hm p hp
    | cons a rest ih =>
      intro m hm p hp
      refine ih _ ?_ p hp
      intro q hq
      rcases mem_aset hq with h | h
      · rw [h]
      · exact hm q h
  exact key active [] (by simp)

theorem updatesFold_id_inv (us : List MemoryFacade.ClaimUpdate) :
    ∀ (m : List (String × Claim)), (∀ p ∈ m, p.2.id = p.1) →
      ∀ p ∈ us.foldl MemoryFacade.applyUpdateStep m, p.2.id = p.1 := by
  induction us with
  | nil => intro m hm p hp; exact hm p hp
  | cons u rest ih =>
    intro m hm p hp
    refine ih _ ?_ p hp
    intro q hq
    unfold MemoryFacade.applyUpdateStep at hq
    split at hq
    · exact hm q hq
    · cases hget : aget m u.claim_id with
      | none => rw [hget] at hq; exact hm q hq
      | some c =>
        rw [hget] at hq
        rcases mem_aset hq with h | h
        · rw [h]
          have := hm (u.claim_id, c) (aget_mem hget)
          simpa [applyOneUpdate_id] using this
        · exact hm q h

theorem foldl_aset_isSome (l : List Claim) :
    ∀ (m : List (String × Claim)) (k : String), (aget m k).isSome →
      (aget (l.foldl (fun m c => aset m c.id c) m) k).isSome := by
  induction l with
  | nil => intro m k h; exact h
  | cons a rest ih =>
    intro m k h
    exact ih _ k (isSome_aget_aset _ _ _ _ h)

theorem claimsMap_key_present (active : List Claim) (c : Claim)
    (hc : c ∈ active) :
    ∀ m : List (String × Claim),
      (aget (active.foldl (fun m c => aset m c.id c) m) c.id).isSome := by
  induction active with
  | nil => cases hc
  | cons a rest ih =>
    intro m
    rcases List.mem_cons.mp hc with h | h
    · subst h
      exact foldl_aset_isSome rest _ c.id (by simp [aget_aset_self])
    · exact ih h _

theorem updatesFold_isSome (us : List MemoryFacade.ClaimUpdate) :
    ∀ (m : List (String × Claim)) (k : String), (aget m k).isSome →
      (aget (us.foldl MemoryFacade.applyUpdateStep m) k).isSome := by
  induction us with
  | nil => intro m k h; exact h
  | cons u rest ih =>
    intro m k h
    refine ih _ k ?_
    unfold MemoryFacade.applyUpdateStep
    split
    · exact h
    · cases hget : aget m u.claim_id with
      | none => exact h
      | some c => exact isSome_aget_aset _ _ _ _ h

theorem updatesFold_untouched (us : List MemoryFacade.ClaimUpdate) :
    ∀ (m : List (String × Claim)) (k : String),
      (∀ u ∈ us, u.claim_id ≠ k) →
      aget (us.foldl MemoryFacade.applyUpdateStep m) k = aget m k := by
  induction us with
  | nil => intro m k _; rfl
  | cons u rest ih =>
    intro m k hne
    have hstep : aget (MemoryFacade.applyUpdateStep m u) k = aget m k := by
      unfold MemoryFacade.applyUpdateStep
      split
      · rfl
      · cases hget : aget m u.claim_id with
        | none => rfl
        | some c =>
          exact aget_aset_ne _ _ _ _
            (fun hh => hne u (List.mem_cons_self _ _) hh.symm)
    rw [List.foldl_cons, ih _ k (fun u' hu' => hne u' (List.mem_cons_of_mem _ hu')),
      hstep]

theorem rebuildClaims_of_nodup (m : List (String × Claim)) :
    ∀ active : List Claim, (active.map (·.id)).Nodup →
      MemoryFacade.rebuildClaims m active =
        active.map (fun c => (aget m c.id).getD c) := by
  intro active
  induction active with
  | nil => intro _; rfl
  | cons c rest ih =>
    intro hnod
    rw [List.map_cons, List.nodup_cons] at hnod
    have hall : rest.all (fun c2 => c2.id ≠ c.id) = true := by
      rw [List.all_eq_true]
      intro c2 hc2
      simp only [decide_eq_true_eq]
      intro he
      exact hnod.1 (he ▸ List.mem_map_of_mem (·.id) hc2)
    unfold MemoryFacade.rebuildClaims
    rw [hall, if_pos rfl, ih hnod.2, List.map_cons]

theorem applyUpdateStep_some (m : List (String × Claim))
    (u : MemoryFacade.ClaimUpdate) (c : Claim) (hne : u.claim_id ≠ "")
    (h : aget m u.claim_id = some c) :
    MemoryFacade.applyUpdateStep m u =
      aset m u.claim_id (MemoryFacade.applyOneUpdate c u) := by
  unfold MemoryFacade.applyUpdateStep
  rw [if_neg hne, h]

/-- A retracted-claim fixture: two active claims of nonzero confidence. -/
def c3ClaimA : Claim :=
  { id := "c1", text := "A", support_ids := ["e1"], aspects := [],
    confidence := 0.9 }

def c3ClaimB : Claim :=
  { id := "c2", text := "B", support_ids := ["e2"], aspects := [],
    confidence := 0.8 }

def c3Td : TurnData := { user_query := "q", claims_active := [c3ClaimA, c3ClaimB] }

def c3Ledger : MemoryFacade := { turn_data := [("s", [("t", c3Td)])] }

def c3Retract : MemoryFacade.ClaimUpdate :=
  { claim_id := "c1", action := "retracted", new_confidence := 0 }

/-- C3.  The confidence-zero purge invariant, corrected.  (i) Every ledger
operation preserves "no active claim has confidence 0" — but only under the
side condition that `merge_claims` payloads carry no zero-confidence claim:
`merge_claims` inserts unseen claims as-is without filtering, so the
invariant does not hold for arbitrary reachable states (see
`merge_claims_zero_confidence_counterexample`).  (ii) Immediately after
`apply_claim_updates` every active claim of the touched turn has strictly
positive confidence.  (iii) After `apply_claim_updates` processes a
`retracted` verdict for a nonempty claim id (under distinct active-claim
ids and distinct update ids), that id is absent from the turn's
`get_claims` result. -/
theorem active_claims_nonzero_invariant :
    (∀ (st : MemoryFacade) (ops : List Op),
        (∀ op ∈ ops, op.mergePayloadNonzero) →
        (∀ sid tid c, c ∈ st.get_claims sid tid → c.confidence ≠ 0) →
        ∀ sid tid c, c ∈ (applyOps st ops).get_claims sid tid →
          c.confidence ≠ 0) ∧
    (∀ (st : MemoryFacade) (sid tid : String)
        (us : List MemoryFacade.ClaimUpdate) (c : Claim),
        c ∈ (st.apply_claim_updates sid tid us).get_claims sid tid →
        0 < c.confidence) ∧
    (∀ (st : MemoryFacade) (sid tid : String)
        (us : List MemoryFacade.ClaimUpdate) (td : TurnData)
        (u : MemoryFacade.ClaimUpdate),
        st.getTurn sid tid = some td →
        (td.claims_active.map (fun c => c.id)).Nodup →
        (us.map (fun u => u.claim_id)).Nodup →
        u ∈ us → u.action = "retracted" → u.claim_id ≠ "" →
        ∀ c ∈ (st.apply_claim_updates sid tid us).get_claims sid tid,
          c.id ≠ u.claim_id) := by
  refine ⟨?_, ?_, ?_⟩
  · intro st ops
    induction ops generalizing st with
    | nil => intro _ hst; exact hst
    | cons op rest ih =>
      intro hops hst
      exact ih (applyOp st op)
        (fun o ho => hops o (List.mem_cons_of_mem _ ho))
        (applyOp_preserves_nonzero op (hops op (List.mem_cons_self _ _)) st hst)
  · intro st sid tid us c hc
    unfold MemoryFacade.get_claims at hc
    cases hg : st.getTurn sid tid with
    | none =>
      rw [apply_claim_updates_none st sid tid us hg, hg] at hc
      simp only [Option.getD_none] at hc
      exact absurd hc (List.not_mem_nil c)
    | some td =>
      rw [apply_claim_updates_getTurn_self_eq st sid tid us td hg] at hc
      simp only [Option.getD_some] at hc
      exact of_decide_eq_true (List.mem_filter.mp hc).2
  · intro st sid tid us td u hg hnodA hnodU hu hact hne c hc heq
    unfold MemoryFacade.get_claims at hc
    rw [apply_claim_updates_getTurn_self_eq st sid tid us td hg] at hc
    simp only [Option.getD_some] at hc
    have h0 : decide ((0 : ℚ) < c.confidence) = true := (List.mem_filter.mp hc).2
    have hmem := (List.mem_filter.mp hc).1
    rw [rebuildClaims_of_nodup _ td.claims_active hnodA] at hmem
    obtain ⟨c0, hc0, hcdef⟩ := List.mem_map.mp hmem
    have hm1inv := updatesFold_id_inv us _ (claimsMap_id_inv td.claims_active)
    have hcid : c.id = c0.id := by
      cases hget : aget (us.foldl MemoryFacade.applyUpdateStep
          (td.claims_active.foldl (fun m c => aset m c.id c) [])) c0.id with
      | none =>
        rw [hget] at hcdef
        simp only [Option.getD_none] at hcdef
        rw [← hcdef]
      | some v =>
        rw [hget] at hcdef
        simp only [Option.getD_some] at hcdef
        rw [← hcdef]
        exact hm1inv (c0.id, v) (aget_mem hget)
    have kc0 : c0.id = u.claim_id := hcid.symm.trans heq
    obtain ⟨pre, post, rfl⟩ := List.append_of_mem hu
    have hpost : ∀ u2 ∈ post, u2.claim_id ≠ u.claim_id := by
      intro u2 hu2 he
      rw [List.map_append, List.map_cons] at hnodU
      have hnd := (List.nodup_append.mp hnodU).2.1
      rw [List.nodup_cons] at hnd
      exact hnd.1 (he ▸ List.mem_map_of_mem (fun x => x.claim_id) hu2)
    have hkey0 := claimsMap_key_present td.claims_active c0 hc0 []
    rw [kc0] at hkey0
    obtain ⟨cp, hcp⟩ := Option.isSome_iff_exists.mp
      (updatesFold_isSome pre _ u.claim_id hkey0)
    have hstep := applyUpdateStep_some _ u cp hne hcp
    have hm1k : aget ((pre ++ u :: post).foldl MemoryFacade.applyUpdateStep
        (td.claims_active.foldl (fun m c => aset m c.id c) [])) u.claim_id =
        some (MemoryFacade.applyOneUpdate cp u) := by
      rw [List.foldl_append, List.foldl_cons,
        updatesFold_untouched post _ u.claim_id hpost, hstep, aget_aset_self]
    rw [← hcdef, kc0, hm1k] at h0
    simp only [Option.getD_some] at h0
    have h1 : (0 : ℚ) < (MemoryFacade.applyOneUpdate cp u).confidence :=
      of_decide_eq_true h0
    rw [applyOneUpdate_retracted_conf cp u hact] at h1
    exact lt_irrefl 0 h1

/-- Concrete run of part (iii): retracting `c1` removes it from the
turn's active claim ids. -/
theorem active_claims_nonzero_invariant_witness :
    "c1" ∉ ((c3Ledger.apply_claim_updates "s" "t" [c3Retract]).get_claims
      "s" "t").map (fun c => c.id) := by
  intro hmem
  obtain ⟨c, hc, hcid⟩ := List.mem_map.mp hmem
  exact active_claims_nonzero_invariant.2.2 c3Ledger "s" "t" [c3Retract] c3Td
    c3Retract rfl (by decide) (by decide) (List.mem_cons_self _ _) rfl
    (by decide) c hc hcid

/-! ## Loop-cap lemmas (C5) -/

theorem setStatusFirst_map_id (id status : String) (plan : List PlanStep) :
    (MemoryFacade.setStatusFirst id status plan).map (fun p => p.step_id) =
      plan.map (fun p => p.step_id) := by
  induction plan with
  | nil => rfl
  | cons p rest ih =>
    unfold MemoryFacade.setStatusFirst
    by_cases hp : p.step_id = id
    · rw [if_pos hp]
      rfl
    · rw [if_neg hp, List.map_cons, List.map_cons, ih]

theorem find?_setStatusFirst_self (id status : String) (plan : List PlanStep) :
    (MemoryFacade.setStatusFirst id status plan).find?
        (fun p => p.step_id = id) =
      (plan.find? (fun p => p.step_id = id)).map
        (fun p => { p with status := status }) := by
  induction plan with
  | nil => rfl
  | cons p rest ih =>
    unfold MemoryFacade.setStatusFirst
    by_cases hp : p.step_id = id
    · rw [if_pos hp]
      rw [List.find?_cons_of_pos _ (by simpa using hp),
        List.find?_cons_of_pos _ (by simpa using hp)]
      rfl
    · rw [if_neg hp]
      rw [List.find?_cons_of_neg _ (by simpa using hp),
        List.find?_cons_of_neg _ (by simpa using hp), ih]

theorem find?_setStatusFirst_ne (id status id2 : String) (plan : List PlanStep)
    (hne : id2 ≠ id) :
    (MemoryFacade.setStatusFirst id status plan).find?
        (fun p => p.step_id = id2) =
      plan.find? (fun p => p.step_id = id2) := by
  induction plan with
  | nil => rfl
  | cons p rest ih =>
    unfold MemoryFacade.setStatusFirst
    by_cases hp : p.step_id = id
    · rw [if_pos hp]
      have hp2 : ¬ p.step_id = id2 := fun h => hne (h ▸ hp.symm ▸ rfl)
      rw [List.find?_cons_of_neg _ (by simpa using hp2),
        List.find?_cons_of_neg _ (by simpa using hp2)]
    · rw [if_neg hp]
      by_cases hq : p.step_id = id2
      · rw [List.find?_cons_of_pos _ (by simpa using hq),
          List.find?_cons_of_pos _ (by simpa using hq)]
      · rw [List.find?_cons_of_neg _ (by simpa using hq),
          List.find?_cons_of_neg _ (by simpa using hq), ih]

theorem nodup_map_inj {α β : Type} {f : α → β} {l : List α}
    (h : (l.map f).Nodup) {a b : α} (ha : a ∈ l) (hb : b ∈ l)
    (he : f a = f b) : a = b := by
  induction l with
  | nil => cases ha
  | cons x rest ih =>
    rw [List.map_cons, List.nodup_cons] at h
    rcases List.mem_cons.mp ha with rfl | ha2
    · rcases List.mem_cons.mp hb with rfl | hb2
      · rfl
      · exact absurd (he ▸ List.mem_map_of_mem f hb2) h.1
    · rcases List.mem_cons.mp hb with rfl | hb2
      · exact absurd (he ▸ List.mem_map_of_mem f ha2) h.1
      · exact ih h.2 ha2 hb2

theorem countOf_bumpCount_self (s : Agent.LoopState) (id : String) :
    Agent.countOf (Agent.bumpCount s id) id = Agent.countOf s id + 1 := by
  unfold Agent.countOf Agent.bumpCount
  rw [aget_aset_self]
  rfl

theorem countOf_bumpCount_ne (s : Agent.LoopState) (id id2 : String)
    (hne : id2 ≠ id) :
    Agent.countOf (Agent.bumpCount s id) id2 = Agent.countOf s id2 := by
  unfold Agent.countOf Agent.bumpCount
  rw [aget_aset_ne _ _ _ _ hne]

theorem getCurrentStep_some {s : Agent.LoopState} {step : PlanStep}
    (h : Agent.getCurrentStep s = some step) :
    s.current_step_id = some step.step_id ∧
      s.plan.find? (fun p => p.step_id = step.step_id) = some step := by
  unfold Agent.getCurrentStep at h
  split at h
  · exact absurd h (by simp)
  · next cid heq =>
    split at h
    · exact absurd h (by simp)
    · have hid : step.step_id = cid := by simpa using List.find?_some h
      subst hid
      exact ⟨heq, h⟩

theorem loopIter_none (s : Agent.LoopState) (eff : Agent.IterEffect)
    (h : Agent.getCurrentStep s = none) : Agent.loopIter s eff = (s, false) := by
  unfold Agent.loopIter
  rw [h]

theorem loopIter_forced (s : Agent.LoopState) (eff : Agent.IterEffect)
    (step : PlanStep) (h : Agent.getCurrentStep s = some step)
    (hforce : 5 < Agent.countOf (Agent.bumpCount s step.step_id) step.step_id) :
    Agent.loopIter s eff =
      Agent.finishAndAdvance (Agent.bumpCount s step.step_id) step.step_id := by
  unfold Agent.loopIter
  rw [h]
  dsimp only
  rw [if_pos hforce]

theorem loopIter_finish (s : Agent.LoopState) (step : PlanStep)
    (h : Agent.getCurrentStep s = some step)
    (hn : ¬ 5 < Agent.countOf (Agent.bumpCount s step.step_id) step.step_id) :
    Agent.loopIter s Agent.IterEffect.finish =
      Agent.finishAndAdvance (Agent.bumpCount s step.step_id) step.step_id := by
  unfold Agent.loopIter
  rw [h]
  dsimp only
  rw [if_neg hn]

theorem loopIter_search (s : Agent.LoopState) (step : PlanStep)
    (h : Agent.getCurrentStep s = some step)
    (hn : ¬ 5 < Agent.countOf (Agent.bumpCount s step.step_id) step.step_id) :
    Agent.loopIter s Agent.IterEffect.search =
      (Agent.bumpCount s step.step_id, true) := by
  unfold Agent.loopIter
  rw [h]
  dsimp only
  rw [if_neg hn]

theorem loopIter_rc_true (s : Agent.LoopState) (step : PlanStep) (ce res : Bool)
    (h : Agent.getCurrentStep s = some step)
    (hn : ¬ 5 < Agent.countOf (Agent.bumpCount s step.step_id) step.step_id)
    (hb : (ce && res) = true) :
    Agent.loopIter s (Agent.IterEffect.resolveConflict ce res) =
      (Agent.finishStep (Agent.bumpCount s step.step_id) step.step_id, true) := by
  unfold Agent.loopIter
  rw [h]
  dsimp only
  rw [if_neg hn, if_pos hb]

theorem loopIter_rc_false (s : Agent.LoopState) (step : PlanStep) (ce res : Bool)
    (h : Agent.getCurrentStep s = some step)
    (hn : ¬ 5 < Agent.countOf (Agent.bumpCount s step.step_id) step.step_id)
    (hb : ¬ (ce && res) = true) :
    Agent.loopIter s (Agent.IterEffect.resolveConflict ce res) =
      (Agent.bumpCount s step.step_id, true) := by
  unfold Agent.loopIter
  rw [h]
  dsimp only
  rw [if_neg hn, if_neg hb]

theorem finishAndAdvance_some (s : Agent.LoopState) (id : String) (n : PlanStep)
    (h : Agent.nextUnfinished (Agent.finishStep s id) = some n) :
    Agent.finishAndAdvance s id =
      ({ Agent.finishStep s id with current_step_id := some n.step_id }, true) := by
  unfold Agent.finishAndAdvance
  dsimp only
  rw [h]

theorem finishAndAdvance_none (s : Agent.LoopState) (id : String)
    (h : Agent.nextUnfinished (Agent.finishStep s id) = none) :
    Agent.finishAndAdvance s id = (Agent.finishStep s id, false) := by
  unfold Agent.finishAndAdvance
  dsimp only
  rw [h]

theorem countOf_finishAndAdvance (s : Agent.LoopState) (id id2 : String) :
    Agent.countOf (Agent.finishAndAdvance s id).1 id2 = Agent.countOf s id2 := by
  cases h : Agent.nextUnfinished (Agent.finishStep s id) with
  | none => rw [finishAndAdvance_none s id h]; rfl
  | some n => rw [finishAndAdvance_some s id n h]; rfl

theorem statusOf_finishStep_self_some (s : Agent.LoopState) (id : String)
    (g : PlanStep) (hf : s.plan.find? (fun p => p.step_id = id) = some g) :
    Agent.statusOf (Agent.finishStep s id) id = some "FINISHED" := by
  unfold Agent.statusOf Agent.finishStep
  dsimp only
  rw [find?_setStatusFirst_self, hf]
  rfl

theorem statusOf_finishStep_ne (s : Agent.LoopState) (id id2 : String)
    (h : id2 ≠ id) :
    Agent.statusOf (Agent.finishStep s id) id2 = Agent.statusOf s id2 := by
  unfold Agent.statusOf Agent.finishStep
  dsimp only
  rw [find?_setStatusFirst_ne _ _ _ _ h]

theorem planIdsNodup_finishStep (s : Agent.LoopState) (id : String)
    (h : Agent.planIdsNodup s) : Agent.planIdsNodup (Agent.finishStep s id) := by
  unfold Agent.planIdsNodup Agent.finishStep at *
  dsimp only at *
  rw [setStatusFirst_map_id]
  exact h

theorem nextUnfinished_ne_finished (s : Agent.LoopState) (n : PlanStep)
    (hnod : Agent.planIdsNodup s)
    (hn : Agent.nextUnfinished s = some n) (id2 : String)
    (hfin : Agent.statusOf s id2 = some "FINISHED") :
    n.step_id ≠ id2 := by
  intro he
  have hnmem : n ∈ s.plan := List.mem_of_find?_eq_some hn
  have hnstat : ¬ n.status = "FINISHED" := by simpa using List.find?_some hn
  unfold Agent.statusOf at hfin
  cases hf : s.plan.find? (fun p => p.step_id = id2) with
  | none => rw [hf] at hfin; exact absurd hfin (by simp)
  | some g =>
    rw [hf] at hfin
    have hgmem : g ∈ s.plan := List.mem_of_find?_eq_some hf
    have hgid : g.step_id = id2 := by simpa using List.find?_some hf
    have hgstat : g.status = "FINISHED" := by simpa using hfin
    have hng : n = g := nodup_map_inj hnod hnmem hgmem (by rw [he, hgid])
    exact hnstat (hng ▸ hgstat)

theorem finishAndAdvance_inv (s : Agent.LoopState) (id : String)
    (hnod : Agent.planIdsNodup s)
    (hother : ∀ id2, id2 ≠ id →
      Agent.countOf s id2 ≤ 5 ∨
        (Agent.countOf s id2 = 6 ∧ Agent.statusOf s id2 = some "FINISHED"))
    (hid6 : Agent.countOf s id = 6 →
      (s.plan.find? (fun p => p.step_id = id)).isSome)
    (hidle : Agent.countOf s id ≤ 6) :
    (Agent.finishAndAdvance s id).2 = true →
      Agent.LoopInv (Agent.finishAndAdvance s id).1 := by
  intro hcont
  cases hnext : Agent.nextUnfinished (Agent.finishStep s id) with
  | none =>
    rw [finishAndAdvance_none s id hnext] at hcont
    exact absurd hcont (by simp)
  | some n =>
    rw [finishAndAdvance_some s id n hnext] at hcont ⊢
    have hnod2 : Agent.planIdsNodup (Agent.finishStep s id) :=
      planIdsNodup_finishStep s id hnod
    refine ⟨hnod2, ?_⟩
    intro id2
    by_cases h2 : id2 = id
    · subst h2
      by_cases h5 : Agent.countOf s id2 ≤ 5
      · exact Or.inl h5
      · right
        have h6 : Agent.countOf s id2 = 6 := by omega
        have hfin : Agent.statusOf (Agent.finishStep s id2) id2 =
            some "FINISHED" := by
          obtain ⟨g, hg⟩ := Option.isSome_iff_exists.mp (hid6 h6)
          exact statusOf_finishStep_self_some s id2 g hg
        refine ⟨h6, hfin, ?_⟩
        intro hc
        have hne := nextUnfinished_ne_finished (Agent.finishStep s id2) n
          hnod2 hnext id2 hfin
        exact hne (by simpa using hc)
    · rcases hother id2 h2 with h | h
      · exact Or.inl h
      · right
        have hfin : Agent.statusOf (Agent.finishStep s id) id2 =
            some "FINISHED" := by
          rw [statusOf_finishStep_ne s id id2 h2]
          exact h.2
        refine ⟨h.1, hfin, ?_⟩
        intro hc
        have hne := nextUnfinished_ne_finished (Agent.finishStep s id) n
          hnod2 hnext id2 hfin
        exact hne (by simpa using hc)

theorem loopIter_progress (s : Agent.LoopState) (eff : Agent.IterEffect)
    (hinv : Agent.LoopInv s) :
    (∀ id, Agent.countOf (Agent.loopIter s eff).1 id ≤ 6) ∧
      ((Agent.loopIter s eff).2 = true →
        Agent.LoopInv (Agent.loopIter s eff).1) := by
  have hle6 : ∀ id, Agent.countOf s id ≤ 6 := by
    intro id
    rcases hinv.2 id with h | h
    · omega
    · omega
  cases hcur : Agent.getCurrentStep s with
  | none =>
    rw [loopIter_none s eff hcur]
    exact ⟨hle6, fun h => absurd h (by simp)⟩
  | some step =>
    obtain ⟨hcurid, hfind⟩ := getCurrentStep_some hcur
    have hstep5 : Agent.countOf s step.step_id ≤ 5 := by
      rcases hinv.2 step.step_id with h | h
      · exact h
      · exact absurd hcurid h.2.2
    have hb_self : Agent.countOf (Agent.bumpCount s step.step_id) step.step_id =
        Agent.countOf s step.step_id + 1 := countOf_bumpCount_self s step.step_id
    have hb6 : ∀ id, Agent.countOf (Agent.bumpCount s step.step_id) id ≤ 6 := by
      intro id
      by_cases hi : id = step.step_id
      · subst hi
        omega
      · rw [countOf_bumpCount_ne s step.step_id id hi]
        exact hle6 id
    have hbnod : Agent.planIdsNodup (Agent.bumpCount s step.step_id) := hinv.1
    have hother : ∀ id2, id2 ≠ step.step_id →
        Agent.countOf (Agent.bumpCount s step.step_id) id2 ≤ 5 ∨
          (Agent.countOf (Agent.bumpCount s step.step_id) id2 = 6 ∧
            Agent.statusOf (Agent.bumpCount s step.step_id) id2 =
              some "FINISHED") := by
      intro id2 h2
      rcases hinv.2 id2 with h | h
      · left
        rw [countOf_bumpCount_ne s step.step_id id2 h2]
        exact h
      · right
        rw [countOf_bumpCount_ne s step.step_id id2 h2]
        exact ⟨h.1, h.2.1⟩
    have hid6 : Agent.countOf (Agent.bumpCount s step.step_id) step.step_id = 6 →
        ((Agent.bumpCount s step.step_id).plan.find?
          (fun p => p.step_id = step.step_id)).isSome := by
      intro _
      exact (by rw [show (Agent.bumpCount s step.step_id).plan = s.plan from rfl,
        hfind]; rfl)
    by_cases hforce :
        5 < Agent.countOf (Agent.bumpCount s step.step_id) step.step_id
    · rw [loopIter_forced s eff step hcur hforce]
      constructor
      · intro id
        rw [countOf_finishAndAdvance]
        exact hb6 id
      · exact fun hc => finishAndAdvance_inv _ _ hbnod hother hid6
          (hb6 step.step_id) hc
    · have hple : Agent.countOf (Agent.bumpCount s step.step_id) step.step_id ≤ 5 := by
        omega
      have hall : ∀ id, Agent.countOf (Agent.bumpCount s step.step_id) id ≤ 5 ∨
          (Agent.countOf (Agent.bumpCount s step.step_id) id = 6 ∧
            Agent.statusOf (Agent.bumpCount s step.step_id) id = some "FINISHED" ∧
            (Agent.bumpCount s step.step_id).current_step_id ≠ some id) := by
        intro id
        by_cases hi : id = step.step_id
        · subst hi
          exact Or.inl hple
        · rcases hinv.2 id with h | h
          · left
            rw [countOf_bumpCount_ne s step.step_id id hi]
            exact h
          · right
            rw [countOf_bumpCount_ne s step.step_id id hi]
            exact ⟨h.1, h.2.1, h.2.2⟩
      cases eff with
      | finish =>
        rw [loopIter_finish s step hcur hforce]
        constructor
        · intro id
          rw [countOf_finishAndAdvance]
          exact hb6 id
        · exact fun hc => finishAndAdvance_inv _ _ hbnod hother hid6
            (hb6 step.step_id) hc
      | search =>
        rw [loopIter_search s step hcur hforce]
        exact ⟨hb6, fun _ => ⟨hbnod, hall⟩⟩
      | resolveConflict ce res =>
        by_cases hb : (ce && res) = true
        · rw [loopIter_rc_true s step ce res hcur hforce hb]
          constructor
          · intro id
            exact hb6 id
          · intro _
            refine ⟨planIdsNodup_finishStep _ _ hbnod, ?_⟩
            intro id
            by_cases hi : id = step.step_id
            · subst hi
              exact Or.inl hple
            · rcases hall id with h | h
              · exact Or.inl h
              · right
                refine ⟨h.1, ?_, h.2.2⟩
                rw [statusOf_finishStep_ne _ _ _ hi]
                exact h.2.1
        · rw [loopIter_rc_false s step ce res hcur hforce hb]
          exact ⟨hb6, fun _ => ⟨hbnod, hall⟩⟩

theorem runLoop_succ (o : Nat → Agent.IterEffect) (fuel : Nat)
    (s : Agent.LoopState) :
    Agent.runLoop o (fuel + 1) s =
      if (Agent.loopIter s (o fuel)).2 = true then
        Agent.runLoop o fuel (Agent.loopIter s (o fuel)).1
      else (Agent.loopIter s (o fuel)).1 := rfl

theorem runLoop_counts_le (o : Nat → Agent.IterEffect) :
    ∀ (fuel : Nat) (s : Agent.LoopState), Agent.LoopInv s →
      ∀ id, Agent.countOf (Agent.runLoop o fuel s) id ≤ 6 := by
  intro fuel
  induction fuel with
  | zero =>
    intro s hinv id
    rw [show Agent.runLoop o 0 s = s from rfl]
    rcases hinv.2 id with h | h
    · omega
    · omega
  | succ fuel ih =>
    intro s hinv id
    have hprog := loopIter_progress s (o fuel) hinv
    rw [runLoop_succ]
    by_cases hr : (Agent.loopIter s (o fuel)).2 = true
    · rw [if_pos hr]
      exact ih _ (hprog.2 hr) id
    · rw [if_neg hr]
      exact hprog.1 id

/-- A single-step plan fixture for the loop-cap bound. -/
def c5Step : PlanStep :=
  { step_id := "s1", goal := "g", action_seed := [], done_criteria := "d",
    priority := 1 }

def c5State : Agent.LoopState :=
  { plan := [c5Step], current_step_id := some "s1" }

/-- C5.  The per-step loop cap.  (i) Whenever the current step's freshly
bumped iteration counter exceeds 5, the iteration behaves as
`finishAndAdvance` regardless of the decided effect: the step's recorded
status becomes `FINISHED` within that same iteration, and either the loop
exits or the current step moves to the next unfinished step.  (ii) From any
state satisfying the loop invariant (distinct step ids, counters at most 5
except for an already-finished non-current step at 6), no step's counter
ever exceeds 6 — each step is processed in at most 6 iterations, for every
oracle of evaluator/decider outputs and every iteration budget. -/
theorem step_loop_cap :
    (∀ (s : Agent.LoopState) (eff : Agent.IterEffect) (step : PlanStep),
        Agent.getCurrentStep s = some step →
        5 < Agent.countOf (Agent.bumpCount s step.step_id) step.step_id →
        Agent.loopIter s eff =
          Agent.finishAndAdvance (Agent.bumpCount s step.step_id)
            step.step_id ∧
        Agent.statusOf (Agent.loopIter s eff).1 step.step_id =
          some "FINISHED" ∧
        ((Agent.loopIter s eff).2 = false ∨
          ∃ n, Agent.nextUnfinished
              (Agent.finishStep (Agent.bumpCount s step.step_id)
                step.step_id) = some n ∧
            (Agent.loopIter s eff).1.current_step_id = some n.step_id)) ∧
    (∀ (o : Nat → Agent.IterEffect) (fuel : Nat) (s : Agent.LoopState),
        Agent.LoopInv s →
        ∀ id, Agent.countOf (Agent.runLoop o fuel s) id ≤ 6) := by
  constructor
  · intro s eff step hcur hforce
    have hiter := loopIter_forced s eff step hcur hforce
    obtain ⟨_, hfind⟩ := getCurrentStep_some hcur
    refine ⟨hiter, ?_, ?_⟩
    · rw [hiter]
      cases hnext : Agent.nextUnfinished
          (Agent.finishStep (Agent.bumpCount s step.step_id) step.step_id) with
      | some n =>
        rw [finishAndAdvance_some _ _ n hnext]
        exact statusOf_finishStep_self_some _ _ step hfind
      | none =>
        rw [finishAndAdvance_none _ _ hnext]
        exact statusOf_finishStep_self_some _ _ step hfind
    · rw [hiter]
      cases hnext : Agent.nextUnfinished
          (Agent.finishStep (Agent.bumpCount s step.step_id) step.step_id) with
      | some n =>
        right
        refine ⟨n, rfl, ?_⟩
        rw [finishAndAdvance_some _ _ n hnext]
      | none =>
        left
        rw [finishAndAdvance_none _ _ hnext]
  · exact runLoop_counts_le

/-- Concrete run of part (ii): a single step driven by a search-only oracle
for 10 iterations never sees its counter exceed 6. -/
theorem step_loop_cap_witness :
    Agent.countOf
      (Agent.runLoop (fun _ => Agent.IterEffect.search) 10 c5State) "s1" ≤ 6 :=
  step_loop_cap.2 (fun _ => Agent.IterEffect.search) 10 c5State
    ⟨by show (c5State.plan.map (fun p => p.step_id)).Nodup
        decide,
      fun id => Or.inl (Nat.zero_le 5)⟩ "s1"

end Prism
